import Mathlib

/-!
# XMCompanies: request pipeline, validators and storage mapping

A shallow embedding of the Go service `RavisMsk/xmcompanies` and the properties
its specification states about it.

Conventions of the embedding

* A Go `string` that reaches the handlers was decoded from JSON or from a URL
  query, so it is valid UTF-8; it is a Lean `String`, `len(s)` is
  `String.utf8ByteSize` and a byte-wise scan that only ever tests for ASCII
  bytes is a scan over the characters.
* A Go `error` is a value of `GoError`; `==` on errors is identity of the
  error value, so the two package-level `ErrNotFound` variables are two
  different constructors even though both print "not found".
* `(T, error)` results are `Except GoError T`.
* Calls to the collaborators (companies layer, IP checker) are recorded, in
  order, in the `calls` trace of the request context.
* Logging through zap has no effect on responses or collaborators and is left
  out.
-/

namespace XMCompanies

/-! ## Go errors -/

/-- Go error values that occur in the service. Equality is identity of the
error value, as for `==` on Go interface values holding `*errorString`. -/
inductive GoError where
  /-- The variable `store.ErrNotFound` of `internal/companies/store`. -/
  | storeErrNotFound
  /-- The variable `companies.ErrNotFound` of `internal/api/companies`. -/
  | companiesErrNotFound
  /-- The variable `mongo.ErrNoDocuments` of the Mongo driver. -/
  | mongoErrNoDocuments
  /-- An error made on the spot by `errors.New(msg)`, or returned by a library. -/
  | other (msg : String)
  deriving DecidableEq, Repr

deriving instance DecidableEq for Except

/-- The Go idiom `err == nil` for a `(T, error)` result. -/
def succeeds {α : Type} (r : Except GoError α) : Bool :=
  match r with
  | .ok _ => true
  | .error _ => false

/-! ## Package `strings` -/

namespace strings

/-- Membership of a code point in a cutset, as `strings.Trim` tests it. -/
def inCutset (cutset : String) (c : Char) : Bool :=
  cutset.data.contains c

/-- Go `strings.TrimRight(s, cutset)`. -/
def TrimRight (s cutset : String) : String :=
  ⟨(s.data.reverse.dropWhile (inCutset cutset)).reverse⟩

/-- Go `strings.TrimLeft(s, cutset)`. -/
def TrimLeft (s cutset : String) : String :=
  ⟨s.data.dropWhile (inCutset cutset)⟩

/-- Go `strings.Trim(s, cutset)`: every leading and trailing code point that is
in `cutset` is removed (the library trims the right end, then the left). -/
def Trim (s cutset : String) : String :=
  TrimLeft (TrimRight s cutset) cutset

end strings

/-! ## Package `strconv` -/

namespace strconv

/-- The error `strconv.ErrSyntax`, wrapped in a `*NumError`. -/
def syntaxError : GoError := .other "invalid syntax"

/-- The error `strconv.ErrRange`, wrapped in a `*NumError`. -/
def rangeError : GoError := .other "value out of range"

/-- Go `lower(c)` of strconv, `c | ('x' - 'X')`, on the numeric value of a byte. -/
def lower (c : Nat) : Nat := c ||| 0x20

/-- The digit loop of Go `strconv.ParseUint`, for an explicit base: `n` is the
`uint64` accumulator, `cutoff` the least number with `cutoff*base > maxUint64`
and `maxVal` the largest value of the requested bit size. A byte of a
character beyond ASCII is none of the three accepted kinds, so the scan over
characters stops with the same syntax error as the scan over bytes. -/
def parseUintLoop (base cutoff maxVal : Nat) : List Char → Nat → Except GoError Nat
  | [], n => .ok n
  | c :: cs, n =>
    let b := c.toNat
    if 48 ≤ b ∧ b ≤ 57 then
      let d := b - 48
      if d ≥ base then .error syntaxError
      else if n ≥ cutoff then .error rangeError
      else
        let n := (n * base) % 2 ^ 64
        let n1 := (n + d) % 2 ^ 64
        if n1 < n ∨ n1 > maxVal then .error rangeError
        else parseUintLoop base cutoff maxVal cs n1
    else if 97 ≤ lower b ∧ lower b ≤ 122 then
      let d := lower b - 97 + 10
      if d ≥ base then .error syntaxError
      else if n ≥ cutoff then .error rangeError
      else
        let n := (n * base) % 2 ^ 64
        let n1 := (n + d) % 2 ^ 64
        if n1 < n ∨ n1 > maxVal then .error rangeError
        else parseUintLoop base cutoff maxVal cs n1
    else .error syntaxError

/-- Go `strconv.ParseUint(s, base, bitSize)` for an explicit base in `2..36`
and a bit size in `1..64`, the way the handlers call it (`base = 10`,
`bitSize = 64`); the prefix detection of `base = 0` is not reached. -/
def ParseUint (s : String) (base bitSize : Nat) : Except GoError Nat :=
  if s.data.isEmpty then .error syntaxError
  else parseUintLoop base ((2 ^ 64 - 1) / base + 1) (2 ^ bitSize - 1) s.data 0

end strconv

/-! ## Package `net/url` -/

namespace url

/-- Go `stringContainsCTLByte`: a byte below 0x20 or the byte 0x7f. -/
def stringContainsCTLByte (s : List Char) : Bool :=
  s.any (fun c => decide (c.toNat < 0x20 ∨ c.toNat = 0x7f))

/-- ASCII letter test used by `getScheme`. -/
def isAsciiLetter (c : Char) : Bool :=
  decide (('a' ≤ c ∧ c ≤ 'z') ∨ ('A' ≤ c ∧ c ≤ 'Z'))

/-- ASCII digit test. -/
def isAsciiDigit (c : Char) : Bool :=
  decide ('0' ≤ c ∧ c ≤ '9')

/-- The loop of Go `getScheme`; `seen` is `rawURL[:i]` and the third argument
is `rawURL[i:]`. The result is the pair (scheme, rest). -/
def getSchemeLoop (rawURL : List Char) : List Char → List Char →
    Except GoError (List Char × List Char)
  | _, [] => .ok ([], rawURL)
  | seen, c :: cs =>
    if isAsciiLetter c then getSchemeLoop rawURL (seen ++ [c]) cs
    else if isAsciiDigit c || c == '+' || c == '-' || c == '.' then
      if seen.isEmpty then .ok ([], rawURL)
      else getSchemeLoop rawURL (seen ++ [c]) cs
    else if c == ':' then
      if seen.isEmpty then .error (.other "missing protocol scheme")
      else .ok (seen, cs)
    else .ok ([], rawURL)

/-- Go `getScheme`. -/
def getScheme (rawURL : List Char) : Except GoError (List Char × List Char) :=
  getSchemeLoop rawURL [] rawURL

/-- Go `ishex`. -/
def ishex (c : Char) : Bool :=
  decide (('0' ≤ c ∧ c ≤ '9') ∨ ('a' ≤ c ∧ c ≤ 'f') ∨ ('A' ≤ c ∧ c ≤ 'F'))

/-- Go `unhex`. -/
def unhex (c : Char) : Nat :=
  if '0' ≤ c ∧ c ≤ '9' then c.toNat - 48
  else if 'a' ≤ c ∧ c ≤ 'f' then c.toNat - 97 + 10
  else if 'A' ≤ c ∧ c ≤ 'F' then c.toNat - 65 + 10
  else 0

/-- The escaping modes of `net/url` that parsing a request URI uses. -/
inductive encoding where
  | encodePath
  | encodeHost
  | encodeZone
  | encodeUserPassword
  deriving DecidableEq, Repr

/-- Go `shouldEscape(c, encodeHost)` on a byte value: letters, digits, the
sub-delimiters allowed in a host and the unreserved marks need no escape. -/
def shouldEscapeHost (c : Nat) : Bool :=
  if (97 ≤ c ∧ c ≤ 122) ∨ (65 ≤ c ∧ c ≤ 90) ∨ (48 ≤ c ∧ c ≤ 57) then false
  else if c ∈ [33, 36, 38, 39, 40, 41, 42, 43, 44, 59, 61, 58, 91, 93, 60, 62, 34] then false
  else if c ∈ [45, 95, 46, 126] then false
  else true

/-- The first pass of Go `unescape(s, mode)`, which is the only place where it
fails: `none` when the text decodes, the error otherwise. The decoded text is
not needed by any caller modelled here. -/
def unescapeCheck (mode : encoding) : List Char → Option GoError
  | [] => none
  | '%' :: a :: b :: cs =>
    if !ishex a || !ishex b then some (.other "invalid URL escape")
    else if mode = .encodeHost ∧ unhex a < 8 ∧ ¬ (a = '2' ∧ b = '5') then
      some (.other "invalid URL escape")
    else if mode = .encodeZone ∧ ¬ (a = '2' ∧ b = '5') ∧ unhex a * 16 + unhex b ≠ 32 ∧
        shouldEscapeHost (unhex a * 16 + unhex b) = true then
      some (.other "invalid URL escape")
    else unescapeCheck mode cs
  | '%' :: _ => some (.other "invalid URL escape")
  | c :: cs =>
    if (mode = .encodeHost ∨ mode = .encodeZone) ∧ c ≠ '+' ∧ c.toNat < 0x80 ∧
        shouldEscapeHost c.toNat = true then
      some (.other "invalid character in host name")
    else unescapeCheck mode cs

/-- Go `validOptionalPort`. -/
def validOptionalPort (port : List Char) : Bool :=
  match port with
  | [] => true
  | c :: cs => c == ':' && cs.all isAsciiDigit

/-- Go `strings.LastIndex(s, sep)` for a one-byte separator: the text before
and the text from the last occurrence on, or `none` when there is none. -/
def splitLast (sep : Char) (s : List Char) : Option (List Char × List Char) :=
  if s.contains sep then
    some ((s.reverse.dropWhile (· != sep)).reverse.dropLast,
          sep :: (s.reverse.takeWhile (· != sep)).reverse)
  else none

/-- Position of the first occurrence of `%25`, as `strings.Index(s, "%25")`. -/
def indexPercent25 : List Char → Option Nat
  | [] => none
  | c :: cs =>
    if (c :: cs).take 3 = ['%', '2', '5'] then some 0
    else (indexPercent25 cs).map (· + 1)

/-- Go `parseHost`, reduced to its error result, as `net/url` had it when the
service was written: a bracketed host is checked for its closing bracket, its port and its
escapes only. Later releases also require the text between the brackets to
be an IPv6 address, so they reject some hosts accepted here; nothing that
they accept is rejected here. -/
def parseHostCheck (host : List Char) : Option GoError :=
  match host with
  | '[' :: _ =>
    match splitLast ']' host with
    | none => some (.other "missing ']' in host")
    | some (before, fromBracket) =>
      if !validOptionalPort fromBracket.tail then some (.other "invalid port after host")
      else
        match indexPercent25 before with
        | some zone =>
          match unescapeCheck .encodeHost (before.take zone) with
          | some e => some e
          | none =>
            match unescapeCheck .encodeZone (before.drop zone) with
            | some e => some e
            | none => unescapeCheck .encodeHost fromBracket
        | none => unescapeCheck .encodeHost host
  | _ =>
    match splitLast ':' host with
    | some (_, colonPort) =>
      if !validOptionalPort colonPort then some (.other "invalid port after host")
      else unescapeCheck .encodeHost host
    | none => unescapeCheck .encodeHost host

/-- Go `validUserinfo`. -/
def validUserinfo (s : List Char) : Bool :=
  s.all (fun r => isAsciiLetter r || isAsciiDigit r ||
    "-._:~!$&'()*+,;=%@".data.contains r)

/-- Go `parseAuthority`, reduced to its error result. -/
def parseAuthorityCheck (authority : List Char) : Option GoError :=
  match splitLast '@' authority with
  | none => parseHostCheck authority
  | some (userinfo, atHost) =>
    match parseHostCheck atHost.tail with
    | some e => some e
    | none =>
      if !validUserinfo userinfo then some (.other "net/url: invalid userinfo")
      else if !userinfo.contains ':' then unescapeCheck .encodeUserPassword userinfo
      else
        match unescapeCheck .encodeUserPassword (userinfo.takeWhile (· != ':')) with
        | some e => some e
        | none =>
          unescapeCheck .encodeUserPassword ((userinfo.dropWhile (· != ':')).tail)

/-- The parts of a parsed URL that `parse` has settled before it decodes
authority and path. -/
structure URL where
  Scheme : String
  Opaque : String
  RawQuery : String
  ForceQuery : Bool
  deriving DecidableEq, Repr

/-- Go `parse(rawURL, viaRequest)` of `net/url`. -/
def parse (rawURL : String) (viaRequest : Bool) : Except GoError URL :=
  let raw := rawURL.data
  if stringContainsCTLByte raw then
    .error (.other "net/url: invalid control character in URL")
  else if raw.isEmpty && viaRequest then .error (.other "empty url")
  else if rawURL = "*" then .ok ⟨"", "", "", false⟩
  else
    match getScheme raw with
    | .error e => .error e
    | .ok (scheme, rest) =>
      let scheme := scheme.map Char.toLower
      let force := rest.getLast? = some '?' && rest.count '?' = 1
      let query := if force then [] else (rest.dropWhile (· != '?')).tail
      let rest := rest.takeWhile (· != '?')
      let u : URL := ⟨⟨scheme⟩, "", ⟨query⟩, force⟩
      if rest.head? != some '/' && !scheme.isEmpty then
        .ok { u with Opaque := ⟨rest⟩ }
      else if rest.head? != some '/' && viaRequest then
        .error (.other "invalid URI for request")
      else if rest.head? != some '/' && (rest.takeWhile (· != '/')).contains ':' then
        .error (.other "first path segment in URL cannot contain colon")
      else if (!scheme.isEmpty || (!viaRequest && rest.take 3 != ['/', '/', '/'])) &&
          rest.take 2 = ['/', '/'] then
        let afterSlashes := rest.drop 2
        let authority := afterSlashes.takeWhile (· != '/')
        let path := afterSlashes.dropWhile (· != '/')
        match parseAuthorityCheck authority with
        | some e => .error e
        | none =>
          match unescapeCheck .encodePath path with
          | some e => .error e
          | none => .ok u
      else
        match unescapeCheck .encodePath rest with
        | some e => .error e
        | none => .ok u

/-- Go `url.ParseRequestURI`. -/
def ParseRequestURI (rawURL : String) : Except GoError URL :=
  match parse rawURL true with
  | .error e => .error e
  | .ok u => .ok u

end url

/-! ## Data model (`internal/api/models`, `internal/companies/models`) -/

namespace models

/-- Go `models.Company` of the API layer. -/
structure Company where
  ID : String
  Name : String
  Code : String
  Country : String
  Website : String
  Phone : String
  deriving DecidableEq, Repr

end models

namespace storeModels

/-- Go `models.Company` of the storage layer; times are abstract instants. -/
structure Company where
  ID : String
  Name : String
  Code : String
  Country : String
  Website : String
  Phone : String
  CreatedAt : Nat
  UpdatedAt : Option Nat
  deriving DecidableEq, Repr

end storeModels

/-! ## Storage interface (`internal/companies/store`) -/

namespace store

/-- Go `store.ErrNotFound`. -/
def ErrNotFound : GoError := .storeErrNotFound

/-- Go `store.CompanyOptFields`; a nil pointer is `none`. -/
structure CompanyOptFields where
  Name : Option String
  Code : Option String
  Country : Option String
  Website : Option String
  Phone : Option String
  deriving DecidableEq, Repr

/-- Go interface `store.Store`; an `error` result is `none` for nil. -/
structure Store where
  Get : String → Except GoError storeModels.Company
  Insert : storeModels.Company → Option GoError
  Update : String → CompanyOptFields → Option GoError
  Delete : String → Option GoError
  Search : CompanyOptFields → Nat → Nat → Except GoError (List storeModels.Company)

end store

/-! ## Mongo store (`internal/companies/store/mongo`) -/

namespace mongo

/-- Go `mongo.ErrNoDocuments` of the driver. -/
def ErrNoDocuments : GoError := .mongoErrNoDocuments

/-- Values stored in a `bson.M` by the store. -/
inductive BsonValue where
  | str (s : String)
  | time (t : Nat)
  deriving DecidableEq, Repr

/-- Go `bson.M` as a list of bindings. -/
abbrev BsonM := List (String × BsonValue)

/-- Assignment `m[key] = value` on a `bson.M`. -/
def BsonM.assign (m : BsonM) (key : String) (value : BsonValue) : BsonM :=
  m.filter (fun kv => kv.1 != key) ++ [(key, value)]

/-- The filter argument of `Collection.Find`, an `interface{}` in Go: the
store can hand it a `bson.M` or a struct of optional fields. -/
inductive FindFilter where
  | doc (m : BsonM)
  | optFields (q : store.CompanyOptFields)
  deriving DecidableEq, Repr

/-- The Go conversion `int64(x)` of a `uint64`: the same 64 bits read as a
signed number, so values from 2^63 on come out negative. -/
def int64 (x : Nat) : Int :=
  ((x : Int) + 2 ^ 63) % 2 ^ 64 - 2 ^ 63

/-- The driver's `*mongo.Collection`, as far as the store uses it. `FindOne`
gives the decoded document or the error of `result.Err()` / `result.Decode`;
`UpdateOne` takes the query and the document under `$set` and gives
`ModifiedCount`; `DeleteOne` gives `DeletedCount`; `Find` takes filter, skip
and limit (the `int64` options) and gives what `cursor.All` decodes. -/
structure Collection where
  FindOne : BsonM → Except GoError storeModels.Company
  InsertOne : storeModels.Company → Option GoError
  UpdateOne : BsonM → BsonM → Except GoError Nat
  DeleteOne : BsonM → Except GoError Nat
  Find : FindFilter → Int → Int → Except GoError (List storeModels.Company)

/-- Go `mongo.Store`. -/
structure Store where
  col : Collection

/-- Go `NewStore`. -/
def NewStore (col : Collection) : Store := ⟨col⟩

/-- Go `(*Store).Get`. -/
def Store.Get (s : Store) (id : String) : Except GoError storeModels.Company :=
  let query : BsonM := [("id", .str id)]
  match s.col.FindOne query with
  | .error err =>
    if err = ErrNoDocuments then .error store.ErrNotFound
    else .error err
  | .ok company => .ok company

/-- Go `(*Store).Insert`; `now` is the value of `time.Now()`. -/
def Store.Insert (s : Store) (now : Nat) (company : storeModels.Company) : Option GoError :=
  s.col.InsertOne { company with CreatedAt := now, UpdatedAt := none }

/-- Go `(*Store).Update`; `now` is the value of `time.Now()`. -/
def Store.Update (s : Store) (now : Nat) (id : String)
    (fields : store.CompanyOptFields) : Option GoError :=
  let query : BsonM := [("id", .str id)]
  let patch : BsonM := [("updated_at", .time now)]
  let patch := match fields.Name with
    | some v => patch.assign "name" (.str v)
    | none => patch
  let patch := match fields.Code with
    | some v => patch.assign "code" (.str v)
    | none => patch
  let patch := match fields.Country with
    | some v => patch.assign "country" (.str v)
    | none => patch
  let patch := match fields.Phone with
    | some v => patch.assign "phone" (.str v)
    | none => patch
  let patch := match fields.Website with
    | some v => patch.assign "website" (.str v)
    | none => patch
  match s.col.UpdateOne query patch with
  | .error err => some err
  | .ok modifiedCount =>
    if modifiedCount < 1 then some store.ErrNotFound
    else none

/-- Go `(*Store).Delete`. -/
def Store.Delete (s : Store) (id : String) : Option GoError :=
  let query : BsonM := [("id", .str id)]
  match s.col.DeleteOne query with
  | .error err => some err
  | .ok deletedCount =>
    if deletedCount < 1 then some store.ErrNotFound
    else none

/-- The `bson.M` that `(*Store).Search` builds in its local `filter`. -/
def Store.searchFilter (query : store.CompanyOptFields) : BsonM :=
  let filter : BsonM := []
  let filter := match query.Name with
    | some v => filter.assign "name" (.str v)
    | none => filter
  let filter := match query.Code with
    | some v => filter.assign "code" (.str v)
    | none => filter
  let filter := match query.Country with
    | some v => filter.assign "country" (.str v)
    | none => filter
  let filter := match query.Phone with
    | some v => filter.assign "phone" (.str v)
    | none => filter
  let filter := match query.Website with
    | some v => filter.assign "website" (.str v)
    | none => filter
  filter

/-- Go `(*Store).Search`: the local `filter` is built, and `Find` is called
with `query`, the struct of optional fields, and with skip and limit
converted to `int64`. -/
def Store.Search (s : Store) (query : store.CompanyOptFields) (skip limit : Nat) :
    Except GoError (List storeModels.Company) :=
  let _filter := Store.searchFilter query
  s.col.Find (.optFields query) (int64 skip) (int64 limit)

/-- A `*mongo.Store` used through the interface `store.Store`. -/
def Store.toStore (s : Store) (now : Nat) : store.Store where
  Get := s.Get
  Insert := s.Insert now
  Update := s.Update now
  Delete := s.Delete
  Search := s.Search

end mongo

/-! ## Companies layer (`internal/api/companies`) -/

namespace companies

/-- Go `companies.ErrNotFound`. -/
def ErrNotFound : GoError := .companiesErrNotFound

/-- Go `companies.CompanyFields`. -/
structure CompanyFields where
  Name : String
  Code : String
  Country : String
  Website : String
  Phone : String
  deriving DecidableEq, Repr

/-- Go `companies.CompanyOptFields`; a nil pointer is `none`. -/
structure CompanyOptFields where
  Name : Option String
  Code : Option String
  Country : Option String
  Website : Option String
  Phone : Option String
  deriving DecidableEq, Repr

/-- Go `companies.SearchFilters`. -/
abbrev SearchFilters := CompanyOptFields

/-- Go `companies.UpdateFields`. -/
abbrev UpdateFields := CompanyOptFields

/-- The Go conversion `store.CompanyOptFields(x)`. -/
def CompanyOptFields.toStore (x : CompanyOptFields) : store.CompanyOptFields :=
  ⟨x.Name, x.Code, x.Country, x.Website, x.Phone⟩

/-- Go interface `companies.Companies`. -/
structure Companies where
  Search : SearchFilters → Nat → Nat → Except GoError (List models.Company)
  Get : String → Except GoError models.Company
  Create : CompanyFields → Except GoError String
  Update : String → UpdateFields → Option GoError
  Delete : String → Option GoError

end companies

/-! ## Direct-store orchestrator (`internal/api/companies/directstore`) -/

namespace directstore

/-- Go `directstore.Companies`. -/
structure Companies where
  store : store.Store

/-- Go `NewDirectStoreCompanies`. -/
def NewDirectStoreCompanies (store : store.Store) : Companies := ⟨store⟩

/-- The conversion of a stored company to the API model, as `Get` and
`Search` write it out field by field. -/
def toAPIModel (result : storeModels.Company) : models.Company :=
  { ID := result.ID, Name := result.Name, Code := result.Code,
    Country := result.Country, Website := result.Website, Phone := result.Phone }

/-- Go `(*Companies).Search`. -/
def Companies.Search (c : Companies) (query : companies.SearchFilters) (skip limit : Nat) :
    Except GoError (List models.Company) :=
  match c.store.Search query.toStore skip limit with
  | .error err => .error err
  | .ok results => .ok (results.map toAPIModel)

/-- Go `(*Companies).Get`. -/
def Companies.Get (c : Companies) (id : String) : Except GoError models.Company :=
  match c.store.Get id with
  | .error err => .error err
  | .ok company => .ok (toAPIModel company)

/-- Go `(*Companies).Create`; `uuid` is the value of `uuid.New().String()`. -/
def Companies.Create (c : Companies) (uuid : String) (company : companies.CompanyFields) :
    Except GoError String :=
  let storeModel : storeModels.Company :=
    { ID := uuid, Name := company.Name, Code := company.Code, Country := company.Country,
      Website := company.Website, Phone := company.Phone, CreatedAt := 0, UpdatedAt := none }
  match c.store.Insert storeModel with
  | some err => .error err
  | none => .ok storeModel.ID

/-- Go `(*Companies).Update`. -/
def Companies.Update (c : Companies) (id : String) (update : companies.UpdateFields) :
    Option GoError :=
  c.store.Update id update.toStore

/-- Go `(*Companies).Delete`. -/
def Companies.Delete (c : Companies) (id : String) : Option GoError :=
  c.store.Delete id

/-- A `*directstore.Companies` used through the interface `companies.Companies`. -/
def Companies.toCompanies (c : Companies) (uuid : String) : companies.Companies where
  Search := c.Search
  Get := c.Get
  Create := c.Create uuid
  Update := c.Update
  Delete := c.Delete

end directstore

/-! ## String set (`internal/pkg/structs`) -/

namespace structs

/-- Go `structs.StringSet`: the keys of the map `m`. -/
structure StringSet where
  m : List String
  deriving DecidableEq, Repr

/-- Go `NewStringSet`. -/
def NewStringSet : StringSet := ⟨[]⟩

/-- Go `(*StringSet).Add`. -/
def StringSet.Add (s : StringSet) (strs : List String) : StringSet :=
  strs.foldl (fun acc str => ⟨if acc.m.contains str then acc.m else acc.m ++ [str]⟩) s

/-- Go `(*StringSet).Has`. -/
def StringSet.Has (s : StringSet) (str : String) : Bool :=
  s.m.contains str

end structs

/-! ## IP checker (`internal/api/ipchecker`) -/

namespace ipchecker

/-- Go interface `ipchecker.Checker`. -/
structure Checker where
  GetIPCountry : String → Except GoError String

end ipchecker

/-! ## Collaborator calls and the gin request context -/

/-- A call made to a collaborator while a request is handled. -/
inductive Call where
  | Search (query : companies.SearchFilters) (skip limit : Nat)
  | Get (id : String)
  | Create (fields : companies.CompanyFields)
  | Update (id : String) (update : companies.UpdateFields)
  | Delete (id : String)
  | GetIPCountry (ip : String)
  deriving DecidableEq, Repr

namespace gin

/-- The JSON documents the handlers write. -/
inductive ResponseBody where
  /-- Nothing written. -/
  | empty
  /-- The object `gin.H{"errors": errs}`. -/
  | errors (errs : List GoError)
  /-- The object `gin.H{"id": companyID}`. -/
  | id (companyID : String)
  /-- A company, with its members id, name, code, country, website, phone. -/
  | company (company : models.Company)
  /-- The object `gin.H{"results": companies}`. -/
  | results (companies : List models.Company)
  deriving DecidableEq, Repr

/-- Go `*gin.Context`, as far as handlers and middleware use it: the request
(client IP, path parameters, query values), the response writer (status,
whether the header is written, body), the two ways the handler index ends
the chain (`aborted`: the index was set to `abortIndex`; `handlersDone`: a
`c.Next()` has run the chain to its end), and the trace of collaborator calls. -/
structure Context where
  ClientIP : String
  Params : List (String × String)
  QueryValues : List (String × String)
  status : Nat
  written : Bool
  body : ResponseBody
  aborted : Bool
  handlersDone : Bool
  calls : List Call
  deriving DecidableEq, Repr

/-- A context as the engine hands it to the first handler of a request. -/
def Context.new (clientIP : String) (params queryValues : List (String × String)) : Context :=
  { ClientIP := clientIP, Params := params, QueryValues := queryValues, status := 200,
    written := false, body := .empty, aborted := false, handlersDone := false, calls := [] }

/-- Go `c.Param(key)`: the path parameter, or the empty string. -/
def Context.Param (c : Context) (key : String) : String :=
  (c.Params.lookup key).getD ""

/-- Go `c.Query(key)`: the first value of the key, or the empty string. -/
def Context.Query (c : Context) (key : String) : String :=
  (c.QueryValues.lookup key).getD ""

/-- Go `c.Status(code)`: the status is kept once the header is written. -/
def Context.Status (c : Context) (code : Nat) : Context :=
  if c.written then c else { c with status := code }

/-- Go `bodyAllowedForStatus` of gin: informational responses, 204 and 304
carry no body. -/
def bodyAllowedForStatus (status : Nat) : Bool :=
  if 100 ≤ status ∧ status ≤ 199 then false
  else if status = 204 then false
  else if status = 304 then false
  else true

/-- Go `c.JSON(code, obj)`, that is `c.Render`: the status is set as by
`c.Status`, then the header and, where the status allows one, the body are
written. The body is written also when the header was written before; no
handler of the service writes a second body after a first. -/
def Context.JSON (c : Context) (code : Nat) (obj : ResponseBody) : Context :=
  if bodyAllowedForStatus code then { c.Status code with written := true, body := obj }
  else { c.Status code with written := true }

/-- Go `c.Abort()`. -/
def Context.Abort (c : Context) : Context :=
  { c with aborted := true }

/-- Go `c.AbortWithStatus(code)`: status, header written, abort. -/
def Context.AbortWithStatus (c : Context) (code : Nat) : Context :=
  Context.Abort { c.Status code with written := true }

/-- Records a collaborator call in the trace. -/
def Context.record (c : Context) (call : Call) : Context :=
  { c with calls := c.calls ++ [call] }

end gin

/-! ## The API (`api.go`) -/

/-- Go interface `Config`, as far as the request pipeline reads it. -/
structure Config where
  GetAllowedCountries : List String

/-- Go `API`: configuration, collaborators, the `int32` flag `stopping` and the
counter of the `sync.WaitGroup` `wg`. -/
structure API where
  cfg : Config
  companies : companies.Companies
  ipChecker : ipchecker.Checker
  stopping : Int
  wg : Int

/-- Go `NewAPI`: flag and counter start at their zero values. -/
def NewAPI (cfg : Config) (companies : companies.Companies) (ipChecker : ipchecker.Checker) :
    API :=
  { cfg := cfg, companies := companies, ipChecker := ipChecker, stopping := 0, wg := 0 }

/-- Two's-complement wrap-around of an `int32`. -/
def wrapInt32 (x : Int) : Int :=
  (x + 2 ^ 31) % 2 ^ 32 - 2 ^ 31

/-- Go `atomic.AddInt32(&a.stopping, 1)`, the state change of `Stop`. -/
def API.raiseStopping (a : API) : API :=
  { a with stopping := wrapInt32 (a.stopping + 1) }

/-- Go `(*API).Stop` as a state change: the flag is raised; `a.wg.Wait()` then
blocks the caller until the counter is zero and changes nothing. -/
def API.Stop (a : API) : API :=
  a.raiseStopping

/-- How a handler invocation ends: it returns, or a panic unwinds it. -/
inductive Exit where
  | returned
  | panicked
  deriving DecidableEq, Repr

/-- Go `gin.HandlerFunc` with the shared `*API` state made explicit. -/
abbrev HandlerFunc := API → gin.Context → API × gin.Context × Exit

/-- A handler of the chain, given what its `c.Next()` does. -/
abbrev Middleware := HandlerFunc → HandlerFunc

/-- The handler loop of gin (`c.Next()` entered with the handlers `hs` still
to run): each handler runs in turn; the loop ends when the index is past the
end, which is so after an abort and after a handler has itself called
`c.Next()`; a panic unwinds the loop. -/
def runHandlers : List Middleware → HandlerFunc
  | [] => fun a c => (a, { c with handlersDone := true }, .returned)
  | h :: hs => fun a c =>
    match h (runHandlers hs) a c with
    | (a1, c1, .panicked) => (a1, c1, .panicked)
    | (a1, c1, .returned) =>
      if c1.aborted || c1.handlersDone then (a1, c1, .returned)
      else runHandlers hs a1 c1

/-- Go `(*API).wrapHandler`: a route handler closes the chain. -/
def API.wrapHandler (f : API → gin.Context → gin.Context) : Middleware :=
  fun _next a c => (a, f a c, .returned)

/-- Go `(*API).shutdownMiddleware`. -/
def API.shutdownMiddleware : Middleware :=
  fun next a c =>
    if a.stopping > 0 then
      (a, c.AbortWithStatus 500, .returned)
    else
      let a := { a with wg := a.wg + 1 }
      match next a c with
      | (a, c, exit) => ({ a with wg := a.wg - 1 }, c, exit)

/-! ## Geo-ACL gate (`ip_middleware.go`) -/

/-- Go `IPCheckingMiddleware`. -/
def IPCheckingMiddleware (checker : ipchecker.Checker)
    (allowedCountries : structs.StringSet) : Middleware :=
  fun next a c =>
    let clientIP := c.ClientIP
    let c := c.record (.GetIPCountry clientIP)
    match checker.GetIPCountry clientIP with
    | .error _ => (a, c.AbortWithStatus 500, .returned)
    | .ok clientCountry =>
      if !allowedCountries.Has clientCountry then
        (a, c.AbortWithStatus 403, .returned)
      else
        next a c

/-! ## Validators (`routes_companies.go`) -/

/-- The character class `[A-Za-z ]`. -/
def isNameChar (c : Char) : Bool :=
  decide (('A' ≤ c ∧ c ≤ 'Z') ∨ ('a' ≤ c ∧ c ≤ 'z') ∨ c = ' ')

/-- The character class `[A-Z]`. -/
def isCodeChar (c : Char) : Bool :=
  decide ('A' ≤ c ∧ c ≤ 'Z')

/-- Go `regexp.MustCompile("^[A-Za-z ]+$").MatchString`: without the `m` flag
`^` and `$` match only at the two ends of the text, so the whole text is one
or more characters of the class. -/
def nameMatcher (s : String) : Bool :=
  !s.data.isEmpty && s.data.all isNameChar

/-- Go `regexp.MustCompile("^[A-Z]+$").MatchString`. -/
def codeMatcher (s : String) : Bool :=
  !s.data.isEmpty && s.data.all isCodeChar

/-- Go `validatedName`. -/
def validatedName (name : String) : Except GoError String :=
  let name := strings.Trim name " \n"
  if name.utf8ByteSize < 4 then
    .error (.other "company name must be at least 4 characters")
  else if !nameMatcher name then
    .error (.other "company name can contain only letters and spaces")
  else
    .ok name

/-- Go `validatedCode`. -/
def validatedCode (code : String) : Except GoError String :=
  let code := strings.Trim code " \n"
  if code.utf8ByteSize < 2 then
    .error (.other "")
  else if !codeMatcher code then
    .error (.other "company code can contain only uppercase letters")
  else
    .ok code

/-- Go `validCountry`. The package `internal/pkg/countries` it delegates to is
not part of the sources at hand, so `countries.IsValidCountry` is a parameter. -/
def validCountry (IsValidCountry : String → Bool) (country : String) : Bool :=
  IsValidCountry country

/-- Go `validatedWebsite`. -/
def validatedWebsite (website : String) : Except GoError String :=
  match url.ParseRequestURI website with
  | .error _ => .error (.other "website is not valid url")
  | .ok _ => .ok website

/-- Go `normalizePhone`. -/
def normalizePhone (phone : String) : Except GoError String :=
  .ok phone

/-! ## Route handlers (`routes_companies.go`) -/

/-- Go `createCompanyRequest`. -/
structure createCompanyRequest where
  Name : String
  Code : String
  Country : String
  Website : String
  Phone : String
  deriving DecidableEq, Repr

/-- Go `companyUpdateRequest`; a nil pointer is `none`. -/
structure companyUpdateRequest where
  Name : Option String
  Code : Option String
  Country : Option String
  Website : Option String
  Phone : Option String
  deriving DecidableEq, Repr

/-- A failed `c.BindJSON`: gin aborts with 400, the handler sets 400 again. -/
def bindFailed (c : gin.Context) : gin.Context :=
  (c.AbortWithStatus 400).Status 400

/-- Go `(*API).handleListCompanies`. -/
def API.handleListCompanies (a : API) (c : gin.Context) : gin.Context :=
  let nameFilter := c.Query "name"
  let codeFilter := c.Query "code"
  let countryFilter := c.Query "country"
  let websiteFilter := c.Query "website"
  let phoneFilter := c.Query "phone"
  let pageString := c.Query "cursor"
  let pageResult :=
    if pageString.utf8ByteSize > 0 then strconv.ParseUint pageString 10 64 else .ok 0
  match pageResult with
  | .error _ => c.Status 400
  | .ok page =>
    let limitString := c.Query "limit"
    let limitResult :=
      if limitString.utf8ByteSize > 0 then strconv.ParseUint limitString 10 64 else .ok 20
    match limitResult with
    | .error _ => c.Status 400
    | .ok limit =>
      if limitString.utf8ByteSize > 0 ∧ limit < 2 then c.Status 400
      else
        let query : companies.SearchFilters :=
          { Name := if nameFilter.utf8ByteSize > 0 then some nameFilter else none
            Code := if codeFilter.utf8ByteSize > 0 then some codeFilter else none
            Country := if countryFilter.utf8ByteSize > 0 then some countryFilter else none
            Website := if websiteFilter.utf8ByteSize > 0 then some websiteFilter else none
            Phone := if phoneFilter.utf8ByteSize > 0 then some phoneFilter else none }
        let c := c.record (.Search query page limit)
        match a.companies.Search query page limit with
        | .error _ => c.Status 500
        | .ok companies => c.JSON 200 (.results companies)

/-- Go `(*API).handleGetCompany`. -/
def API.handleGetCompany (a : API) (c : gin.Context) : gin.Context :=
  let companyID := c.Param "companyID"
  let c := c.record (.Get companyID)
  match a.companies.Get companyID with
  | .error err =>
    if err = companies.ErrNotFound then c.Status 404
    else c.Status 500
  | .ok company => c.JSON 200 (.company company)

/-- The validation part of `handleCreateCompany`: the collected errors, in
the order name, code, country, website, phone, and the fields filled in. -/
def validateCreate (IsValidCountry : String → Bool) (request : createCompanyRequest) :
    List GoError × companies.CompanyFields :=
  let errs : List GoError := []
  let fields : companies.CompanyFields := ⟨"", "", "", "", ""⟩
  let (errs, fields) := match validatedName request.Name with
    | .error err => (errs ++ [err], fields)
    | .ok processedName => (errs, { fields with Name := processedName })
  let (errs, fields) := match validatedCode request.Code with
    | .error err => (errs ++ [err], fields)
    | .ok processedCode => (errs, { fields with Code := processedCode })
  let (errs, fields) :=
    if !validCountry IsValidCountry request.Country then
      (errs ++ [GoError.other "invalid country"], fields)
    else (errs, { fields with Country := request.Country })
  let (errs, fields) := match validatedWebsite request.Website with
    | .error err => (errs ++ [err], fields)
    | .ok processedWebsite => (errs, { fields with Website := processedWebsite })
  let (errs, fields) := match normalizePhone request.Phone with
    | .error err => (errs ++ [err], fields)
    | .ok normalizedPhone => (errs, { fields with Phone := normalizedPhone })
  (errs, fields)

/-- Go `(*API).handleCreateCompany`; `bind` is what `c.BindJSON(&request)`
gives for the body of the request. -/
def API.handleCreateCompany (IsValidCountry : String → Bool) (a : API)
    (bind : Except GoError createCompanyRequest) (c : gin.Context) : gin.Context :=
  match bind with
  | .error _ => bindFailed c
  | .ok request =>
    match validateCreate IsValidCountry request with
    | (errs, fields) =>
      if errs.length > 0 then c.JSON 400 (.errors errs)
      else
        let c := c.record (.Create fields)
        match a.companies.Create fields with
        | .error _ => c.Status 500
        | .ok companyID => c.JSON 201 (.id companyID)

/-- The validation part of `handleUpdateCompany`: only the supplied fields
are validated. -/
def validateUpdate (IsValidCountry : String → Bool) (request : companyUpdateRequest) :
    List GoError × companies.UpdateFields :=
  let errs : List GoError := []
  let update : companies.UpdateFields := ⟨none, none, none, none, none⟩
  let (errs, update) := match request.Name with
    | none => (errs, update)
    | some name =>
      match validatedName name with
      | .error err => (errs ++ [err], update)
      | .ok processedName => (errs, { update with Name := some processedName })
  let (errs, update) := match request.Code with
    | none => (errs, update)
    | some code =>
      match validatedCode code with
      | .error err => (errs ++ [err], update)
      | .ok processedCode => (errs, { update with Code := some processedCode })
  let (errs, update) := match request.Country with
    | none => (errs, update)
    | some country =>
      if validCountry IsValidCountry country then
        (errs, { update with Country := some country })
      else (errs ++ [GoError.other "invalid country"], update)
  let (errs, update) := match request.Website with
    | none => (errs, update)
    | some website =>
      match validatedWebsite website with
      | .error err => (errs ++ [err], update)
      | .ok processedWebsite => (errs, { update with Website := some processedWebsite })
  let (errs, update) := match request.Phone with
    | none => (errs, update)
    | some phone =>
      match normalizePhone phone with
      | .error err => (errs ++ [err], update)
      | .ok normalizedPhone => (errs, { update with Phone := some normalizedPhone })
  (errs, update)

/-- Go `(*API).handleUpdateCompany`; `bind` is what `c.BindJSON(&request)`
gives for the body of the request. -/
def API.handleUpdateCompany (IsValidCountry : String → Bool) (a : API)
    (bind : Except GoError companyUpdateRequest) (c : gin.Context) : gin.Context :=
  match bind with
  | .error _ => bindFailed c
  | .ok request =>
    let companyID := c.Param "companyID"
    match validateUpdate IsValidCountry request with
    | (errs, update) =>
      if errs.length > 0 then c.JSON 400 (.errors errs)
      else
        let c := c.record (.Update companyID update)
        match a.companies.Update companyID update with
        | some _ => c.Status 500
        | none => c.Status 200

/-- Go `(*API).handleDeleteCompany`. -/
def API.handleDeleteCompany (a : API) (c : gin.Context) : gin.Context :=
  let companyID := c.Param "companyID"
  let c := c.record (.Delete companyID)
  match a.companies.Delete companyID with
  | some err =>
    if err = companies.ErrNotFound then c.Status 404
    else c.Status 500
  | none => c.Status 200

/-! ## Interleavings of request goroutines with `Stop`

Every call into `sync/atomic` and `sync.WaitGroup` is one atomic step; the
steps of different goroutines interleave in any order. -/

namespace Interleaving

/-- Where the goroutine of a request stands in `shutdownMiddleware`. -/
inductive RequestPC where
  /-- Before `atomic.LoadInt32(&a.stopping)`. -/
  | arrived
  /-- The loaded flag was not positive; `a.wg.Add(1)` is the next step. -/
  | passed
  /-- After `a.wg.Add(1)`, inside `c.Next()`. -/
  | inFlight
  /-- The rest of the chain has ended and the deferred `a.wg.Done()` has run. -/
  | exited (exit : Exit)
  /-- Aborted with status 500. -/
  | rejected
  deriving DecidableEq, Repr

/-- Where a goroutine that called `Stop` stands. -/
inductive StopPC where
  /-- Before `atomic.AddInt32(&a.stopping, 1)`. -/
  | called
  /-- The flag is raised; the goroutine is inside `a.wg.Wait()`. -/
  | waiting
  /-- `a.wg.Wait()` has returned. -/
  | returned
  deriving DecidableEq, Repr

/-- The shared state of the API and the program counters of all goroutines. -/
structure System where
  stopping : Int
  wg : Int
  requests : List RequestPC
  stops : List StopPC
  deriving DecidableEq, Repr

/-- The state after `NewAPI`: no request, no call of `Stop`. -/
def System.init : System :=
  { stopping := 0, wg := 0, requests := [], stops := [] }

/-- One atomic step of one goroutine. -/
inductive Action where
  /-- A new request reaches `shutdownMiddleware`. -/
  | arrive
  /-- A goroutine calls `Stop`. -/
  | callStop
  /-- Request `i` loads the flag and compares it with zero. -/
  | load (i : Nat)
  /-- Request `i` executes `a.wg.Add(1)`. -/
  | add (i : Nat)
  /-- The chain of request `i` ends with `exit`; the deferred `a.wg.Done()` runs. -/
  | leave (i : Nat) (exit : Exit)
  /-- Stop call `j` executes `atomic.AddInt32(&a.stopping, 1)`. -/
  | raise (j : Nat)
  /-- The `a.wg.Wait()` of stop call `j` returns; it can when the counter is zero. -/
  | wake (j : Nat)
  deriving DecidableEq, Repr

/-- The step relation as a function: `none` when the action is not enabled. -/
def step (s : System) : Action → Option System
  | .arrive => some { s with requests := s.requests ++ [.arrived] }
  | .callStop => some { s with stops := s.stops ++ [.called] }
  | .load i =>
    match s.requests[i]? with
    | some .arrived =>
      if s.stopping > 0 then some { s with requests := s.requests.set i .rejected }
      else some { s with requests := s.requests.set i .passed }
    | _ => none
  | .add i =>
    match s.requests[i]? with
    | some .passed => some { s with wg := s.wg + 1, requests := s.requests.set i .inFlight }
    | _ => none
  | .leave i exit =>
    match s.requests[i]? with
    | some .inFlight =>
      some { s with wg := s.wg - 1, requests := s.requests.set i (.exited exit) }
    | _ => none
  | .raise j =>
    match s.stops[j]? with
    | some .called =>
      some { s with stopping := wrapInt32 (s.stopping + 1), stops := s.stops.set j .waiting }
    | _ => none
  | .wake j =>
    match s.stops[j]? with
    | some .waiting =>
      if s.wg = 0 then some { s with stops := s.stops.set j .returned } else none
    | _ => none

/-- Runs a schedule from a state; `none` when some action is not enabled. -/
def run (s : System) : List Action → Option System
  | [] => some s
  | act :: rest =>
    match step s act with
    | some s1 => run s1 rest
    | none => none

end Interleaving

/-! ## The engine (`createEngine` in `api.go`) -/

/-- The routes that `createEngine` registers. -/
inductive Route where
  /-- `GET /v1`. -/
  | getV1
  /-- `GET /v1/companies`. -/
  | listCompanies
  /-- `GET /v1/companies/:companyID`. -/
  | getCompany
  /-- `PUT /v1/companies/:companyID`. -/
  | updateCompany
  /-- `POST /v1/companies`. -/
  | createCompany
  /-- `DELETE /v1/companies/:companyID`. -/
  | deleteCompany
  deriving DecidableEq, Repr

/-- A request as the router hands it on: the route it matched and what
`c.BindJSON` gives for its body with either request struct as target. -/
structure Request where
  route : Route
  createBody : Except GoError createCompanyRequest
  updateBody : Except GoError companyUpdateRequest

/-- Go `ginzap.Ginzap`: runs the chain, then logs the request. -/
def Ginzap : Middleware :=
  fun next a c => next a c

/-- Go `ginzap.RecoveryWithZap`: a panic of the chain is recovered and the
request aborted with status 500. -/
def RecoveryWithZap : Middleware :=
  fun next a c =>
    match next a c with
    | (a1, c1, .panicked) => (a1, c1.AbortWithStatus 500, .returned)
    | (a1, c1, .returned) => (a1, c1, .returned)

/-- Go `(*API).reqSetupMiddleware`: request id, logger and deadline context
are stored under their keys, then the chain runs. -/
def API.reqSetupMiddleware : Middleware :=
  fun next a c => next a c

/-- The handlers that `createEngine` registers for a route, after the four
handlers installed with `r.Use`. The gate is built from the checker and the
allowed countries of the API the engine is created for. -/
def routeHandlers (IsValidCountry : String → Bool) (a : API) (r : Request) : List Middleware :=
  let allowedCountries := structs.NewStringSet.Add a.cfg.GetAllowedCountries
  match r.route with
  | .getV1 => [fun _next a c => (a, c.Status 200, .returned)]
  | .listCompanies => [API.wrapHandler API.handleListCompanies]
  | .getCompany => [API.wrapHandler API.handleGetCompany]
  | .updateCompany =>
    [API.wrapHandler (fun a c => a.handleUpdateCompany IsValidCountry r.updateBody c)]
  | .createCompany =>
    [IPCheckingMiddleware a.ipChecker allowedCountries,
     API.wrapHandler (fun a c => a.handleCreateCompany IsValidCountry r.createBody c)]
  | .deleteCompany =>
    [IPCheckingMiddleware a.ipChecker allowedCountries,
     API.wrapHandler API.handleDeleteCompany]

/-- Go `(*API).createEngine`: the handler chain the engine runs for a request. -/
def API.createEngine (IsValidCountry : String → Bool) (a : API) (r : Request) :
    List Middleware :=
  [Ginzap, RecoveryWithZap, API.reqSetupMiddleware, API.shutdownMiddleware] ++
    routeHandlers IsValidCountry a r

/-- Go `engine.ServeHTTP` for a request that matches a registered route. -/
def API.serve (IsValidCountry : String → Bool) (a : API) (r : Request) (c : gin.Context) :
    API × gin.Context × Exit :=
  runHandlers (a.createEngine IsValidCountry r) a c

/-- What happens to a running API: a call of `Stop`, or a request served. -/
inductive Event where
  | stop
  | request (r : Request) (c : gin.Context)

/-- The API after a sequence of events, one after the other. -/
def API.after (IsValidCountry : String → Bool) (a : API) : List Event → API
  | [] => a
  | .stop :: events => API.after IsValidCountry a.Stop events
  | .request r c :: events =>
    API.after IsValidCountry (a.serve IsValidCountry r c).1 events

/-! ## A collection with given documents -/

namespace mongo

/-- The `bson.M` that `(*Store).Update` builds in its local `patch`. -/
def Store.updatePatch (now : Nat) (fields : store.CompanyOptFields) : BsonM :=
  let patch : BsonM := [("updated_at", .time now)]
  let patch := match fields.Name with
    | some v => patch.assign "name" (.str v)
    | none => patch
  let patch := match fields.Code with
    | some v => patch.assign "code" (.str v)
    | none => patch
  let patch := match fields.Country with
    | some v => patch.assign "country" (.str v)
    | none => patch
  let patch := match fields.Phone with
    | some v => patch.assign "phone" (.str v)
    | none => patch
  let patch := match fields.Website with
    | some v => patch.assign "website" (.str v)
    | none => patch
  patch

/-- The BSON field of a stored company under a key, by the `bson` tags of
`models.Company`; `updated_at` is missing while `UpdatedAt` is nil. -/
def documentField (d : storeModels.Company) (key : String) : Option BsonValue :=
  if key = "id" then some (.str d.ID)
  else if key = "name" then some (.str d.Name)
  else if key = "code" then some (.str d.Code)
  else if key = "country" then some (.str d.Country)
  else if key = "website" then some (.str d.Website)
  else if key = "phone" then some (.str d.Phone)
  else if key = "created_at" then some (.time d.CreatedAt)
  else if key = "updated_at" then d.UpdatedAt.map .time
  else none

/-- The filter document the driver sends for a `Find` argument, a value of
`none` standing for BSON null. A `bson.M` is sent as it is; a struct is
marshalled field by field under the lower-cased field name, a nil pointer
as null. -/
def FindFilter.document : FindFilter → List (String × Option BsonValue)
  | .doc m => m.map (fun kv => (kv.1, some kv.2))
  | .optFields q =>
    [("name", q.Name.map .str), ("code", q.Code.map .str), ("country", q.Country.map .str),
     ("website", q.Website.map .str), ("phone", q.Phone.map .str)]

/-- MongoDB's equality match: every entry of the filter document must hold;
an entry with a value holds when the field has that value, an entry with
null when the field is missing or null. -/
def FindFilter.matches (f : FindFilter) (d : storeModels.Company) : Bool :=
  f.document.all (fun kv => documentField d kv.1 == kv.2)

/-- The driver's answers on a collection that holds the documents `docs` (a
snapshot: writes report their counts and leave the documents as they are).
The server refuses a negative skip; a limit of 0 is no limit, and a negative
limit is a limit of its absolute value. -/
def collectionOf (docs : List storeModels.Company) : Collection where
  FindOne := fun query =>
    match docs.find? (FindFilter.matches (.doc query)) with
    | some d => .ok d
    | none => .error ErrNoDocuments
  InsertOne := fun _ => none
  UpdateOne := fun query _ => .ok (if docs.any (FindFilter.matches (.doc query)) then 1 else 0)
  DeleteOne := fun query => .ok (if docs.any (FindFilter.matches (.doc query)) then 1 else 0)
  Find := fun filter skip limit =>
    if skip < 0 then .error (.other "skip value must be non-negative")
    else
      let found := (docs.filter filter.matches).drop skip.toNat
      .ok (if limit = 0 then found else found.take limit.natAbs)

end mongo

/-- The company of the tests, as a stored document. -/
def validStoredCompany : storeModels.Company :=
  { ID := "1234", Name := "Valid Name", Code := "VN", Country := "Cyprus",
    Website := "http://company.valid/", Phone := "79991234567", CreatedAt := 1,
    UpdatedAt := none }

/-! ## A collection that holds no document -/

/-- The driver's answers on a collection without documents: `FindOne` ends in
`mongo.ErrNoDocuments`, nothing is modified or deleted, `Find` finds nothing. -/
def emptyCollection : mongo.Collection where
  FindOne := fun _ => .error mongo.ErrNoDocuments
  InsertOne := fun _ => none
  UpdateOne := fun _ _ => .ok 0
  DeleteOne := fun _ => .ok 0
  Find := fun _ _ _ => .ok []

/-- The companies layer of the service when the collection is empty: the
direct-store orchestrator over the Mongo store. -/
def emptyCompanies : companies.Companies :=
  (directstore.NewDirectStoreCompanies
    ((mongo.NewStore emptyCollection).toStore 0)).toCompanies "generated-id"

/-- An IP checker that resolves every address to the given country. -/
def constChecker (country : String) : ipchecker.Checker where
  GetIPCountry := fun _ => .ok country

/-- An API over the empty collection, with `Cyprus` allow-listed. -/
def emptyAPI : API :=
  NewAPI ⟨["Cyprus"]⟩ emptyCompanies (constChecker "Cyprus")

/-! ## The specification's reading of the validators and of list requests -/

/-- The number of fields among name, code, country and website that their
validator rejects. -/
def invalidFieldCount (IsValidCountry : String → Bool) (request : createCompanyRequest) : Nat :=
  (if succeeds (validatedName request.Name) then 0 else 1) +
  (if succeeds (validatedCode request.Code) then 0 else 1) +
  (if validCountry IsValidCountry request.Country then 0 else 1) +
  (if succeeds (validatedWebsite request.Website) then 0 else 1)

/-- A character allowed in a URI scheme after its first letter. -/
def specSchemeChar (c : Char) : Bool :=
  url.isAsciiLetter c || url.isAsciiDigit c || c == '+' || c == '-' || c == '.'

/-- The text starts with a URI scheme: a letter, then letters, digits, `+`,
`-` or `.`, then a colon. -/
def specHasScheme (w : String) : Bool :=
  match w.data with
  | [] => false
  | c :: cs =>
    url.isAsciiLetter c && (cs.takeWhile (· != ':')).all specSchemeChar &&
      (cs.dropWhile (· != ':')).head? == some ':'

/-- The specification's "absolute URI with a scheme and an authority": a
scheme, its colon, and the `//` that introduces the authority. -/
def specHasSchemeAndAuthority (w : String) : Bool :=
  specHasScheme w && ((w.data.dropWhile (· != ':')).take 3 == [':', '/', '/'])

/-- The specification's "unsigned decimal number": one or more digits. -/
def specIsDecimal (s : String) : Bool :=
  !s.data.isEmpty && s.data.all Char.isDigit

/-- The value of a text of decimal digits. -/
def specDecimalValue (s : String) : Nat :=
  s.data.foldl (fun n c => 10 * n + (c.toNat - 48)) 0

/-- A query value is an unsigned decimal number that fits 64 bits. -/
def specIsUint64 (s : String) : Bool :=
  specIsDecimal s && decide (specDecimalValue s < 2 ^ 64)

/-- The list requests the handler turns down: a non-empty `cursor` that is
not an unsigned 64-bit decimal number, or a non-empty `limit` that is not
one or is below 2. -/
def listRequestRejected (c : gin.Context) : Bool :=
  (c.Query "cursor" != "" && !specIsUint64 (c.Query "cursor")) ||
  (c.Query "limit" != "" &&
    (!specIsUint64 (c.Query "limit") || decide (specDecimalValue (c.Query "limit") < 2)))

/-- The claim's condition for a 400: a supplied `cursor` that is not an
unsigned decimal number, or a supplied `limit` that is not one or is below 2. -/
def claimedListRejected (c : gin.Context) : Bool :=
  ((c.QueryValues.lookup "cursor").any (fun v => !specIsDecimal v)) ||
  ((c.QueryValues.lookup "limit").any
    (fun v => !specIsDecimal v || decide (specDecimalValue v < 2)))

/-! ## The specification's reading of name validation -/

/-- The specification's "leading and trailing whitespace removed": trimming
of every whitespace character (space, tab, carriage return, newline). -/
def specTrimWhitespace (s : String) : String :=
  ⟨(s.data.reverse.dropWhile Char.isWhitespace).reverse.dropWhile Char.isWhitespace⟩

/-- The specification's acceptance condition for a name, on a trimmed text:
at least 4 characters, all of them in `[A-Za-z ]`. -/
def specNameOk (t : String) : Prop :=
  4 ≤ t.length ∧ ∀ c ∈ t.data, isNameChar c = true

/-! ## The specification's reading of update patches -/

/-- Some supplied field of the patch fails its validator. -/
def updateHasInvalid (IsValidCountry : String → Bool) (request : companyUpdateRequest) : Bool :=
  request.Name.any (fun v => !succeeds (validatedName v)) ||
  request.Code.any (fun v => !succeeds (validatedCode v)) ||
  request.Country.any (fun v => !validCountry IsValidCountry v) ||
  request.Website.any (fun v => !succeeds (validatedWebsite v)) ||
  request.Phone.any (fun v => !succeeds (normalizePhone v))

/-- The `UpdateFields` of a patch: each supplied field with its validated
value, each absent field nil. -/
def expectedUpdateFields (request : companyUpdateRequest) : companies.UpdateFields :=
  { Name := request.Name.bind (fun v => (validatedName v).toOption)
    Code := request.Code.bind (fun v => (validatedCode v).toOption)
    Country := request.Country
    Website := request.Website.bind (fun v => (validatedWebsite v).toOption)
    Phone := request.Phone.bind (fun v => (normalizePhone v).toOption) }

/-! ## The specification's reading of the Mongo update patch -/

/-- The `$set` value the claim expects under a key: the current time under
`updated_at`, a supplied field under its name, nothing else. -/
def expectedPatchValue (now : Nat) (fields : store.CompanyOptFields) (key : String) :
    Option mongo.BsonValue :=
  if key = "updated_at" then some (.time now)
  else if key = "name" then fields.Name.map .str
  else if key = "code" then fields.Code.map .str
  else if key = "country" then fields.Country.map .str
  else if key = "phone" then fields.Phone.map .str
  else if key = "website" then fields.Website.map .str
  else none

/-! ## Observations on traces and event sequences -/

/-- The call is a geolocation lookup. -/
def Call.isIPCall : Call → Bool
  | .GetIPCountry _ => true
  | _ => false

/-- The context once the handler loop has gone past the last handler: the
index is at the end unless the request was aborted before. -/
def gin.Context.chainEnded (c : gin.Context) : gin.Context :=
  if c.aborted || c.handlersDone then c else { c with handlersDone := true }

/-- The event is a call of `Stop`. -/
def Event.isStop : Event → Bool
  | .stop => true
  | .request _ _ => false

/-- The number of `Stop` calls in a sequence of events. -/
def stopCount (events : List Event) : Nat :=
  (events.filter Event.isStop).length

/-- A companies layer that answers every call with fixed results, as the
mock of the tests does. -/
def mockCompanies (get : Except GoError models.Company) (delete : Option GoError) :
    companies.Companies where
  Search := fun _ _ _ => .ok []
  Get := fun _ => get
  Create := fun _ => .ok "1234"
  Update := fun _ _ => none
  Delete := fun _ => delete

/-- The API of the tests over the mock, with `Test` allow-listed. -/
def mockAPI (get : Except GoError models.Company) (delete : Option GoError) : API :=
  NewAPI ⟨["Test"]⟩ (mockCompanies get delete) (constChecker "Test")

/-! ## The specification's reading of the geo gate on a route -/

/-- The response of a geo-gated route as the specification has it: a
draining API rejects with 500; otherwise the caller's country is looked up,
a failed lookup rejects with 500 and a country outside the configured list
with 403, both without running the route's handler; a listed country lets
the handler run, on the context that records the lookup. -/
def gatedResponse (a : API) (c : gin.Context) (handler : API → gin.Context → gin.Context) :
    gin.Context × Exit :=
  if a.stopping > 0 then (c.AbortWithStatus 500, .returned)
  else
    match a.ipChecker.GetIPCountry c.ClientIP with
    | .error _ => ((c.record (.GetIPCountry c.ClientIP)).AbortWithStatus 500, .returned)
    | .ok country =>
      if country ∈ a.cfg.GetAllowedCountries then
        ((handler { a with wg := a.wg + 1 } (c.record (.GetIPCountry c.ClientIP))).chainEnded,
          .returned)
      else ((c.record (.GetIPCountry c.ClientIP)).AbortWithStatus 403, .returned)

/-! # Properties -/

/-! ## Create requests -/

theorem validateCreate_length (IsValidCountry : String → Bool) (request : createCompanyRequest) :
    (validateCreate IsValidCountry request).1.length = invalidFieldCount IsValidCountry request := by
  unfold validateCreate invalidFieldCount normalizePhone
  cases hn : validatedName request.Name <;> cases hc : validatedCode request.Code <;>
    cases hv : validCountry IsValidCountry request.Country <;>
    cases hw : validatedWebsite request.Website <;>
    simp [succeeds]

/-- C1. A create request with at least one invalid field among name, code,
country and website is answered 400 with an `errors` list that has one entry
per rejected field, and the companies layer is not called. -/
theorem handleCreateCompany_invalid (IsValidCountry : String → Bool) (a : API)
    (request : createCompanyRequest) (c : gin.Context) (hw : c.written = false)
    (hinv : 0 < invalidFieldCount IsValidCountry request) :
    ∃ errs : List GoError,
      errs.length = invalidFieldCount IsValidCountry request ∧
      (a.handleCreateCompany IsValidCountry (.ok request) c).status = 400 ∧
      (a.handleCreateCompany IsValidCountry (.ok request) c).body = .errors errs ∧
      (a.handleCreateCompany IsValidCountry (.ok request) c).calls = c.calls := by
  refine ⟨(validateCreate IsValidCountry request).1, validateCreate_length _ _, ?_⟩
  have hlen := validateCreate_length IsValidCountry request
  unfold API.handleCreateCompany
  simp only []
  rw [if_pos (by omega)]
  simp [gin.Context.JSON, gin.bodyAllowedForStatus, gin.Context.Status, hw]

theorem handleCreateCompany_invalid_witness :
    0 < invalidFieldCount (· == "Cyprus")
        ⟨"invalid1234name", "a", "atlantis", "http://valid.name/", "79991234567"⟩ ∧
    ∃ errs : List GoError,
      errs.length = invalidFieldCount (· == "Cyprus")
        ⟨"invalid1234name", "a", "atlantis", "http://valid.name/", "79991234567"⟩ ∧
      (emptyAPI.handleCreateCompany (· == "Cyprus")
        (.ok ⟨"invalid1234name", "a", "atlantis", "http://valid.name/", "79991234567"⟩)
        (gin.Context.new "44.44.44.44" [] [])).status = 400 ∧
      (emptyAPI.handleCreateCompany (· == "Cyprus")
        (.ok ⟨"invalid1234name", "a", "atlantis", "http://valid.name/", "79991234567"⟩)
        (gin.Context.new "44.44.44.44" [] [])).body = .errors errs ∧
      (emptyAPI.handleCreateCompany (· == "Cyprus")
        (.ok ⟨"invalid1234name", "a", "atlantis", "http://valid.name/", "79991234567"⟩)
        (gin.Context.new "44.44.44.44" [] [])).calls = (gin.Context.new "44.44.44.44" [] []).calls :=
  ⟨by decide, handleCreateCompany_invalid (· == "Cyprus") emptyAPI
    ⟨"invalid1234name", "a", "atlantis", "http://valid.name/", "79991234567"⟩
    (gin.Context.new "44.44.44.44" [] []) rfl (by decide)⟩

/-! ## Geo-ACL gate -/

/-- C2. The gate has three outcomes, fixed by the lookup result and the
allow-set: lookup failure aborts with 500, a country outside the allow-set
aborts with 403, otherwise the request goes on to the next handler. In the
two aborting outcomes the result does not depend on the next handler, the
only collaborator call is the lookup itself, and gin runs no later handler. -/
theorem IPCheckingMiddleware_outcomes (checker : ipchecker.Checker)
    (allowedCountries : structs.StringSet) (next : HandlerFunc) (rest : List Middleware)
    (a : API) (c : gin.Context) (hw : c.written = false) :
    match checker.GetIPCountry c.ClientIP with
    | .error _ =>
      IPCheckingMiddleware checker allowedCountries next a c =
        (a, (c.record (.GetIPCountry c.ClientIP)).AbortWithStatus 500, .returned) ∧
      (IPCheckingMiddleware checker allowedCountries next a c).2.1.status = 500 ∧
      (IPCheckingMiddleware checker allowedCountries next a c).2.1.aborted = true ∧
      (IPCheckingMiddleware checker allowedCountries next a c).2.1.calls =
        c.calls ++ [.GetIPCountry c.ClientIP] ∧
      runHandlers (IPCheckingMiddleware checker allowedCountries :: rest) a c =
        (a, (c.record (.GetIPCountry c.ClientIP)).AbortWithStatus 500, .returned)
    | .ok country =>
      if allowedCountries.Has country = true then
        IPCheckingMiddleware checker allowedCountries next a c =
          next a (c.record (.GetIPCountry c.ClientIP))
      else
        IPCheckingMiddleware checker allowedCountries next a c =
          (a, (c.record (.GetIPCountry c.ClientIP)).AbortWithStatus 403, .returned) ∧
        (IPCheckingMiddleware checker allowedCountries next a c).2.1.status = 403 ∧
        (IPCheckingMiddleware checker allowedCountries next a c).2.1.aborted = true ∧
        (IPCheckingMiddleware checker allowedCountries next a c).2.1.calls =
          c.calls ++ [.GetIPCountry c.ClientIP] ∧
        runHandlers (IPCheckingMiddleware checker allowedCountries :: rest) a c =
          (a, (c.record (.GetIPCountry c.ClientIP)).AbortWithStatus 403, .returned) := by
  cases hl : checker.GetIPCountry c.ClientIP with
  | error e =>
    simp [IPCheckingMiddleware, runHandlers, hl, gin.Context.AbortWithStatus, gin.Context.Abort,
      gin.Context.Status, gin.Context.record, hw]
  | ok country =>
    cases hh : allowedCountries.Has country <;>
    simp [IPCheckingMiddleware, runHandlers, hl, hh, gin.Context.AbortWithStatus,
      gin.Context.Abort, gin.Context.Status, gin.Context.record, hw]

theorem IPCheckingMiddleware_outcomes_witness :
    (gin.Context.new "44.44.44.44" [("companyID", "1234")] []).written = false ∧
    (IPCheckingMiddleware (constChecker "Unwhitelisted") (structs.NewStringSet.Add ["Test"])
      (runHandlers [API.wrapHandler API.handleDeleteCompany]) emptyAPI
      (gin.Context.new "44.44.44.44" [("companyID", "1234")] [])).2.1.status = 403 ∧
    (IPCheckingMiddleware (constChecker "Unwhitelisted") (structs.NewStringSet.Add ["Test"])
      (runHandlers [API.wrapHandler API.handleDeleteCompany]) emptyAPI
      (gin.Context.new "44.44.44.44" [("companyID", "1234")] [])).2.1.calls =
        [.GetIPCountry "44.44.44.44"] :=
  ⟨rfl,
   (IPCheckingMiddleware_outcomes (constChecker "Unwhitelisted")
      (structs.NewStringSet.Add ["Test"])
      (runHandlers [API.wrapHandler API.handleDeleteCompany]) [] emptyAPI
      (gin.Context.new "44.44.44.44" [("companyID", "1234")] []) rfl).2.1,
   (IPCheckingMiddleware_outcomes (constChecker "Unwhitelisted")
      (structs.NewStringSet.Add ["Test"])
      (runHandlers [API.wrapHandler API.handleDeleteCompany]) [] emptyAPI
      (gin.Context.new "44.44.44.44" [("companyID", "1234")] []) rfl).2.2.2.1⟩

/-! ## Not-found through the direct-store orchestrator -/

/-- C3. Evaluation at the failing input: with no document for the id, the
Mongo store's `Get` gives `store.ErrNotFound`, the orchestrator hands that
value on, the handler's comparison with `companies.ErrNotFound` fails, and
the response is 500, not 404. -/
theorem handleGetCompany_missing_document_is_500 (clientIP id : String) :
    (mongo.NewStore emptyCollection).Get id = .error store.ErrNotFound ∧
    (emptyAPI.handleGetCompany (gin.Context.new clientIP [("companyID", id)] [])).status = 500 ∧
    (emptyAPI.handleGetCompany (gin.Context.new clientIP [("companyID", id)] [])).status ≠ 404 := by
  have h : emptyAPI.companies.Get id = .error store.ErrNotFound := rfl
  have hp : (gin.Context.new clientIP [("companyID", id)] []).Param "companyID" = id := by
    simp [gin.Context.Param, gin.Context.new, List.lookup]
  have hs : (emptyAPI.handleGetCompany
      (gin.Context.new clientIP [("companyID", id)] [])).status = 500 := by
    unfold API.handleGetCompany
    simp only [hp, h]
    simp [store.ErrNotFound, companies.ErrNotFound, gin.Context.Status, gin.Context.record,
      gin.Context.new]
  refine ⟨rfl, hs, ?_⟩
  rw [hs]
  decide

/-- C4. Evaluation at the failing input: when the storage answers with
`store.ErrNotFound`, the orchestrator's `Get`, `Update` and `Delete` return
that same storage-layer value, which is not `companies.ErrNotFound`. -/
theorem directstore_returns_store_ErrNotFound (id : String) (update : companies.UpdateFields)
    (now : Nat) :
    (directstore.NewDirectStoreCompanies ((mongo.NewStore emptyCollection).toStore now)).Get id
      = .error store.ErrNotFound ∧
    (directstore.NewDirectStoreCompanies ((mongo.NewStore emptyCollection).toStore now)).Update
      id update = some store.ErrNotFound ∧
    (directstore.NewDirectStoreCompanies ((mongo.NewStore emptyCollection).toStore now)).Delete id
      = some store.ErrNotFound ∧
    store.ErrNotFound ≠ companies.ErrNotFound := by
  refine ⟨rfl, ?_, rfl, by decide⟩
  simp [directstore.Companies.Update, directstore.NewDirectStoreCompanies, mongo.Store.toStore,
    mongo.Store.Update, mongo.NewStore, emptyCollection]

/-! ## Shutdown gate -/

/-- C5. Once the stopping flag is raised, `shutdownMiddleware` answers a new
request with status 500 and aborts it; the result does not depend on the
handlers that follow, gin runs none of them, no collaborator is called and
the in-flight counter is left as it was. -/
theorem shutdownMiddleware_rejects_when_stopping (a : API) (next : HandlerFunc)
    (rest : List Middleware) (c : gin.Context) (hs : 0 < a.stopping)
    (hw : c.written = false) :
    API.shutdownMiddleware next a c = (a, c.AbortWithStatus 500, .returned) ∧
    runHandlers (API.shutdownMiddleware :: rest) a c = (a, c.AbortWithStatus 500, .returned) ∧
    (c.AbortWithStatus 500).status = 500 ∧
    (c.AbortWithStatus 500).aborted = true ∧
    (c.AbortWithStatus 500).calls = c.calls ∧
    (API.shutdownMiddleware next a c).1.wg = a.wg := by
  have h1 : API.shutdownMiddleware next a c = (a, c.AbortWithStatus 500, .returned) := by
    simp [API.shutdownMiddleware, hs]
  have h2 : ∀ n : HandlerFunc,
      API.shutdownMiddleware n a c = (a, c.AbortWithStatus 500, .returned) := by
    intro n
    simp [API.shutdownMiddleware, hs]
  refine ⟨h1, ?_, ?_, ?_, ?_, ?_⟩
  · simp [runHandlers, h2, gin.Context.AbortWithStatus, gin.Context.Abort]
  · simp [gin.Context.AbortWithStatus, gin.Context.Abort, gin.Context.Status, hw]
  · simp [gin.Context.AbortWithStatus, gin.Context.Abort]
  · simp [gin.Context.AbortWithStatus, gin.Context.Abort, gin.Context.Status, hw]
  · rw [h1]

theorem shutdownMiddleware_rejects_when_stopping_witness :
    0 < emptyAPI.Stop.stopping ∧
    (gin.Context.new "44.44.44.44" [] []).written = false ∧
    API.shutdownMiddleware (runHandlers [API.wrapHandler API.handleListCompanies])
        emptyAPI.Stop (gin.Context.new "44.44.44.44" [] []) =
      (emptyAPI.Stop, (gin.Context.new "44.44.44.44" [] []).AbortWithStatus 500, .returned) :=
  ⟨by decide, rfl,
   (shutdownMiddleware_rejects_when_stopping emptyAPI.Stop
      (runHandlers [API.wrapHandler API.handleListCompanies]) []
      (gin.Context.new "44.44.44.44" [] []) (by decide) rfl).1⟩

/-- C6. Evaluation at the failing schedule: a request loads the flag while it
is still zero, `Stop` then raises the flag and its `Wait` returns because the
counter is zero, and only then the request executes `wg.Add(1)`; the request
is counted, and in flight, after the drain has been waited for. -/
theorem counted_after_drain_began :
    Interleaving.run Interleaving.System.init
        [.arrive, .callStop, .load 0, .raise 0, .wake 0, .add 0] =
      some { stopping := 1, wg := 1, requests := [.inFlight], stops := [.returned] } := by
  decide

/-! ## Name validation -/

theorem utf8Size_of_le_z (c : Char) (h : c ≤ 'z') : c.utf8Size = 1 := by
  have h1 : c.val.toNat ≤ 122 := h
  have h2 : c.val ≤ UInt32.ofNatCore 127 (by decide) := by
    show c.val.toNat ≤ 127
    omega
  simp only [Char.utf8Size, h2, if_true]

theorem isNameChar_le_z (c : Char) (h : isNameChar c = true) : c ≤ 'z' := by
  simp only [isNameChar, decide_eq_true_eq] at h
  rcases h with ⟨_, h⟩ | ⟨_, h⟩ | h
  · exact le_trans h (by decide)
  · exact h
  · subst h; decide

theorem utf8Len_eq_length (cs : List Char) (h : ∀ c ∈ cs, c ≤ 'z') :
    String.utf8Len cs = cs.length := by
  induction cs with
  | nil => rfl
  | cons c cs ih =>
    have hc := utf8Size_of_le_z c (h c (List.mem_cons_self _ _))
    have := ih (fun d hd => h d (List.mem_cons_of_mem _ hd))
    simp only [String.utf8Len_cons, List.length_cons, hc, this]

theorem utf8ByteSize_eq_length (s : String) (h : ∀ c ∈ s.data, c ≤ 'z') :
    s.utf8ByteSize = s.length := by
  cases s with
  | mk cs => exact utf8Len_eq_length cs h

theorem trim_data (s cutset : String) :
    (strings.Trim s cutset).data =
      (s.data.rdropWhile (strings.inCutset cutset)).dropWhile (strings.inCutset cutset) := rfl

theorem rdropWhile_dropWhile_rdropWhile {α : Type} (p : α → Bool) (l : List α) :
    ((l.rdropWhile p).dropWhile p).rdropWhile p = (l.rdropWhile p).dropWhile p := by
  rw [List.rdropWhile_eq_self_iff]
  intro hne
  have hX : (l.rdropWhile p).rdropWhile p = l.rdropWhile p := List.rdropWhile_idempotent p l
  rw [List.rdropWhile_eq_self_iff] at hX
  rw [List.IsSuffix.getLast (List.dropWhile_suffix p) hne]
  exact hX _

theorem trim_idem (s cutset : String) :
    strings.Trim (strings.Trim s cutset) cutset = strings.Trim s cutset := by
  apply String.ext
  rw [trim_data, trim_data, rdropWhile_dropWhile_rdropWhile, List.dropWhile_idempotent]

theorem nameMatcher_iff (t : String) :
    nameMatcher t = true ↔ t.data ≠ [] ∧ ∀ c ∈ t.data, isNameChar c = true := by
  simp [nameMatcher, List.all_eq_true, List.isEmpty_iff]

theorem validatedName_ok_iff (s n : String) :
    validatedName s = .ok n ↔
      n = strings.Trim s " \n" ∧ 4 ≤ n.utf8ByteSize ∧ nameMatcher n = true := by
  unfold validatedName
  simp only []
  split
  · rename_i h
    constructor
    · intro h'; cases h'
    · rintro ⟨rfl, h4, _⟩; omega
  · rename_i h
    split
    · rename_i h2
      constructor
      · intro h'; cases h'
      · rintro ⟨rfl, _, hm⟩
        simp [hm] at h2
    · rename_i h2
      constructor
      · intro h'
        injection h' with h'
        subst h'
        refine ⟨rfl, by omega, by simpa using h2⟩
      · rintro ⟨rfl, _, _⟩
        rfl

/-- C7 (as amended). `validatedName` succeeds with result `n` exactly when
`n` is the input with its leading and trailing spaces and newlines (the
cutset of `strings.Trim`, no other whitespace) removed, and `n` has at least
4 characters, all of them in `[A-Za-z ]`. -/
theorem validatedName_accepts_iff (s n : String) :
    validatedName s = .ok n ↔ n = strings.Trim s " \n" ∧ specNameOk n := by
  rw [validatedName_ok_iff]
  constructor
  · rintro ⟨hn, h4, hm⟩
    rw [nameMatcher_iff] at hm
    refine ⟨hn, ?_, hm.2⟩
    rw [← utf8ByteSize_eq_length n (fun c hc => isNameChar_le_z c (hm.2 c hc))]
    exact h4
  · rintro ⟨hn, h4, hall⟩
    refine ⟨hn, ?_, ?_⟩
    · rw [utf8ByteSize_eq_length n (fun c hc => isNameChar_le_z c (hall c hc))]
      exact h4
    · rw [nameMatcher_iff]
      refine ⟨?_, hall⟩
      intro h0
      have : n.length = 0 := by simp [String.length, h0]
      omega

/-- C7 as stated fails: with its surrounding whitespace removed, the input
made of a tab and `ABCD` is `ABCD`, four letters, and `validatedName`
rejects it, since a tab is not in the cutset. -/
theorem validatedName_tab_rejected :
    ¬ (succeeds (validatedName "\tABCD") = true ↔
        specNameOk (specTrimWhitespace "\tABCD")) := by
  intro h
  have h1 : specNameOk (specTrimWhitespace "\tABCD") := ⟨by decide, by decide⟩
  have h2 := h.mpr h1
  revert h2
  decide

/-- C8. A name that `validatedName` accepts, validated again, is accepted and
returned unchanged. -/
theorem validatedName_idempotent (s n : String) (h : validatedName s = .ok n) :
    validatedName n = .ok n := by
  rw [validatedName_ok_iff] at h ⊢
  obtain ⟨hn, h4, hm⟩ := h
  refine ⟨?_, h4, hm⟩
  rw [hn, trim_idem]

theorem validatedName_idempotent_witness :
    validatedName "  Valid Name \n" = .ok "Valid Name" ∧
      validatedName "Valid Name" = .ok "Valid Name" :=
  ⟨by decide, validatedName_idempotent "  Valid Name \n" "Valid Name" (by decide)⟩

/-! ## Website validation -/

theorem specSchemeChar_ne_colon (c : Char) (h : specSchemeChar c = true) : (c != ':') = true := by
  by_contra hc
  simp at hc
  subst hc
  revert h
  decide

theorem getSchemeLoop_shape (raw : List Char) :
    ∀ (rest seen scheme r : List Char), seen ≠ [] →
      url.getSchemeLoop raw seen rest = .ok (scheme, r) →
      (scheme = [] ∧ r = raw) ∨
        ∃ pre, rest = pre ++ ':' :: r ∧ ∀ c ∈ pre, specSchemeChar c = true := by
  intro rest
  induction rest with
  | nil =>
    intro seen scheme r _ h
    simp [url.getSchemeLoop] at h
    exact Or.inl ⟨h.1, h.2.symm⟩
  | cons c cs ih =>
    intro seen scheme r hseen h
    have hne : seen ++ [c] ≠ [] := by simp
    have hemp : seen.isEmpty = false := by
      cases seen with
      | nil => exact absurd rfl hseen
      | cons _ _ => rfl
    unfold url.getSchemeLoop at h
    split at h
    · rename_i hl
      rcases ih (seen ++ [c]) scheme r hne h with h1 | ⟨pre, hpre, hall⟩
      · exact Or.inl h1
      · refine Or.inr ⟨c :: pre, by simp [hpre], ?_⟩
        intro d hd
        rcases List.mem_cons.mp hd with rfl | hd
        · simp [specSchemeChar, hl]
        · exact hall d hd
    · split at h
      · rename_i hl hd
        simp only [hemp] at h
        rcases ih (seen ++ [c]) scheme r hne h with h1 | ⟨pre, hpre, hall⟩
        · exact Or.inl h1
        · refine Or.inr ⟨c :: pre, by simp [hpre], ?_⟩
          intro d hd'
          rcases List.mem_cons.mp hd' with rfl | hd'
          · simp only [specSchemeChar]
            simp only [Bool.or_eq_true] at hd ⊢
            tauto
          · exact hall d hd'
      · split at h
        · rename_i hcolon
          simp only [hemp] at h
          simp at h
          have hc : c = ':' := by simpa using hcolon
          exact Or.inr ⟨[], by simp [hc, h.2], by simp⟩
        · simp at h
          exact Or.inl ⟨h.1, h.2.symm⟩

theorem getScheme_shape (raw scheme r : List Char)
    (h : url.getScheme raw = .ok (scheme, r)) :
    (scheme = [] ∧ r = raw) ∨ specHasScheme ⟨raw⟩ = true := by
  unfold url.getScheme at h
  cases raw with
  | nil =>
    simp [url.getSchemeLoop] at h
    exact Or.inl ⟨h.1, h.2⟩
  | cons c cs =>
    unfold url.getSchemeLoop at h
    split at h
    · rename_i hl
      rcases getSchemeLoop_shape (c :: cs) cs ([] ++ [c]) scheme r (by simp) h with
        h1 | ⟨pre, hpre, hall⟩
      · exact Or.inl h1
      · right
        have hno : ∀ d ∈ pre, (d != ':') = true := fun d hd =>
          specSchemeChar_ne_colon d (hall d hd)
        have htake : (pre ++ ':' :: r).takeWhile (· != ':') = pre := by
          rw [List.takeWhile_append_of_pos hno]
          simp [List.takeWhile]
        have hdrop : (pre ++ ':' :: r).dropWhile (· != ':') = ':' :: r := by
          rw [List.dropWhile_append_of_pos hno]
          simp [List.dropWhile]
        simp only [specHasScheme, hpre, htake, hdrop, hl, Bool.true_and, List.head?_cons,
          Bool.and_eq_true, List.all_eq_true, beq_self_eq_true, and_true]
        exact hall
    · split at h
      · simp at h
        exact Or.inl ⟨h.1, h.2.symm⟩
      · split at h
        · simp at h
        · simp at h
          exact Or.inl ⟨h.1, h.2.symm⟩



theorem head_takeWhile_slash (l : List Char)
    (h : (l.takeWhile (· != '?')).head? = some '/') : l.head? = some '/' := by
  cases l with
  | nil => simp at h
  | cons c cs =>
    by_cases hc : (c != '?') = true
    · simpa [List.takeWhile_cons, hc] using h
    · simp [List.takeWhile_cons, hc] at h

theorem parse_request_shape (w : String) (u : url.URL) (h : url.parse w true = .ok u) :
    w = "*" ∨ w.data.head? = some '/' ∨ specHasScheme w = true := by
  unfold url.parse at h
  simp only [] at h
  split at h
  · cases h
  · split at h
    · cases h
    · split at h
      · rename_i hstar
        exact Or.inl hstar
      · split at h
        · cases h
        · rename_i scheme rest hgs
          rcases getScheme_shape w.data scheme rest hgs with ⟨hs, hr⟩ | hsch
          · subst hs hr
            right; left
            simp only [List.map_nil, List.isEmpty_nil, Bool.not_true, Bool.and_false,
              Bool.false_eq_true, if_false, Bool.and_true] at h
            split at h
            · cases h
            · rename_i hhead
              apply head_takeWhile_slash
              simpa using hhead
          · exact Or.inr (Or.inr hsch)

/-- C9 (as amended). When `validatedWebsite` accepts a text it returns the
text unchanged, and the text is `*`, or starts with `/` (an absolute path),
or starts with a URI scheme and its colon (an authority need not follow);
`here-should-be-a-link` is rejected. -/
theorem validatedWebsite_accepts_only (w r : String) (h : validatedWebsite w = .ok r) :
    r = w ∧ (w = "*" ∨ w.data.head? = some '/' ∨ specHasScheme w = true) ∧
      succeeds (validatedWebsite "here-should-be-a-link") = false := by
  unfold validatedWebsite url.ParseRequestURI at h
  cases hp : url.parse w true with
  | error e => simp [hp] at h
  | ok u =>
    simp [hp] at h
    exact ⟨h.symm, parse_request_shape w u hp, by decide⟩

theorem validatedWebsite_accepts_only_witness :
    validatedWebsite "http://valid.name/" = .ok "http://valid.name/" ∧
    ("http://valid.name/" = "http://valid.name/" ∧
      ("http://valid.name/" = "*" ∨ "http://valid.name/".data.head? = some '/' ∨
        specHasScheme "http://valid.name/" = true) ∧
      succeeds (validatedWebsite "here-should-be-a-link") = false) :=
  ⟨by decide, validatedWebsite_accepts_only "http://valid.name/" "http://valid.name/" (by decide)⟩

/-- C9 as stated fails: the absolute path `/companies` has neither scheme nor
authority, and `validatedWebsite` accepts it. -/
theorem validatedWebsite_accepts_absolute_path :
    ¬ (succeeds (validatedWebsite "/companies") = true →
        specHasSchemeAndAuthority "/companies" = true) := by
  decide

/-! ## List requests -/

theorem isDigit_iff (c : Char) : c.isDigit = true ↔ 48 ≤ c.toNat ∧ c.toNat ≤ 57 := by
  simp only [Char.isDigit, Bool.and_eq_true, decide_eq_true_eq, Char.toNat]
  constructor
  · rintro ⟨h1, h2⟩
    exact ⟨h1, h2⟩
  · rintro ⟨h1, h2⟩
    exact ⟨h1, h2⟩

theorem foldl_decimal_ge (cs : List Char) :
    ∀ m : Nat, m ≤ cs.foldl (fun n c => 10 * n + (c.toNat - 48)) m := by
  induction cs with
  | nil => intro m; simp
  | cons c cs ih =>
    intro m
    simp only [List.foldl_cons]
    have := ih (10 * m + (c.toNat - 48))
    omega

theorem parseUintLoop_ok_iff (cs : List Char) :
    ∀ n0 n : Nat, n0 < 2 ^ 64 →
      (strconv.parseUintLoop 10 ((2 ^ 64 - 1) / 10 + 1) (2 ^ 64 - 1) cs n0 = .ok n ↔
        (∀ c ∈ cs, c.isDigit = true) ∧
        cs.foldl (fun n c => 10 * n + (c.toNat - 48)) n0 < 2 ^ 64 ∧
        n = cs.foldl (fun n c => 10 * n + (c.toNat - 48)) n0) := by
  induction cs with
  | nil =>
    intro n0 n h0
    simp only [strconv.parseUintLoop, List.foldl_nil, List.not_mem_nil, false_implies,
      implies_true, true_and]
    constructor
    · intro h
      injection h with h
      exact ⟨h0, h.symm⟩
    · rintro ⟨_, h⟩
      rw [h]
  | cons c cs ih =>
    intro n0 n h0
    have hge := foldl_decimal_ge cs (10 * n0 + (c.toNat - 48))
    unfold strconv.parseUintLoop
    simp only [List.foldl_cons, List.mem_cons, forall_eq_or_imp, isDigit_iff c]
    by_cases hd : 48 ≤ c.toNat ∧ c.toNat ≤ 57
    · rw [if_pos hd]
      have hdlt : ¬ (c.toNat - 48 ≥ 10) := by omega
      rw [if_neg hdlt]
      by_cases hcut : n0 ≥ (2 ^ 64 - 1) / 10 + 1
      · rw [if_pos hcut]
        constructor
        · intro h; cases h
        · rintro ⟨_, hlt, _⟩
          omega
      · rw [if_neg hcut]
        by_cases hov : (n0 * 10 % 2 ^ 64 + (c.toNat - 48)) % 2 ^ 64 < n0 * 10 % 2 ^ 64 ∨
            (n0 * 10 % 2 ^ 64 + (c.toNat - 48)) % 2 ^ 64 > 2 ^ 64 - 1
        · rw [if_pos hov]
          constructor
          · intro h; cases h
          · rintro ⟨_, hlt, _⟩
            omega
        · rw [if_neg hov]
          have hn1 : (n0 * 10 % 2 ^ 64 + (c.toNat - 48)) % 2 ^ 64 = 10 * n0 + (c.toNat - 48) := by
            omega
          rw [hn1]
          have hlt : 10 * n0 + (c.toNat - 48) < 2 ^ 64 := by omega
          rw [ih _ n hlt]
          constructor
          · rintro ⟨h1, h2, h3⟩
            exact ⟨⟨hd, h1⟩, h2, h3⟩
          · rintro ⟨⟨_, h1⟩, h2, h3⟩
            exact ⟨h1, h2, h3⟩
    · rw [if_neg hd]
      constructor
      · intro h
        exfalso
        split at h
        · split at h
          · cases h
          · rename_i hbase
            omega
        · cases h
      · rintro ⟨⟨hd', _⟩, _⟩
        exact absurd hd' hd

theorem ParseUint_ok_iff (s : String) (n : Nat) :
    strconv.ParseUint s 10 64 = .ok n ↔ specIsUint64 s = true ∧ n = specDecimalValue s := by
  unfold strconv.ParseUint specIsUint64 specIsDecimal specDecimalValue
  by_cases he : s.data.isEmpty = true
  · simp [he]
  · simp only [he, Bool.false_eq_true, if_false]
    rw [parseUintLoop_ok_iff s.data 0 n (by norm_num)]
    simp only [Bool.not_false, Bool.true_and, Bool.and_eq_true, List.all_eq_true,
      decide_eq_true_eq, Bool.not_eq_true]
    tauto

theorem ParseUint_error_iff (s : String) :
    (∃ e, strconv.ParseUint s 10 64 = .error e) ↔ specIsUint64 s = false := by
  cases h : strconv.ParseUint s 10 64 with
  | error e =>
    simp only [Except.error.injEq, exists_eq', true_iff]
    by_contra hc
    have hc' : specIsUint64 s = true := by simpa using hc
    have := (ParseUint_ok_iff s (specDecimalValue s)).mpr ⟨hc', rfl⟩
    rw [h] at this
    cases this
  | ok n =>
    have := ((ParseUint_ok_iff s n).mp h).1
    simp [this]

theorem utf8ByteSize_pos_iff (s : String) : s.utf8ByteSize > 0 ↔ s ≠ "" := by
  cases s with
  | mk cs =>
    cases cs with
    | nil => simp [String.utf8ByteSize, String.utf8ByteSize.go]
    | cons c cs =>
      have := Char.utf8Size_pos c
      simp only [String.utf8ByteSize, String.utf8ByteSize.go, gt_iff_lt, ne_eq]
      constructor
      · intro _ h
        have := congrArg String.data h
        simp at this
      · intro _
        omega

theorem ParseUint_cases (s : String) :
    (specIsUint64 s = true ∧ strconv.ParseUint s 10 64 = .ok (specDecimalValue s)) ∨
    (specIsUint64 s = false ∧ ∃ e, strconv.ParseUint s 10 64 = .error e) := by
  cases h : specIsUint64 s with
  | true => exact Or.inl ⟨rfl, (ParseUint_ok_iff s _).mpr ⟨h, rfl⟩⟩
  | false => exact Or.inr ⟨rfl, (ParseUint_error_iff s).mpr h⟩

/-- C10 (as amended). `handleListCompanies` answers 400 and does not call
`Search` when `cursor` is non-empty and is not an unsigned decimal number
below 2^64, or when `limit` is non-empty and is not such a number or is
below 2; in every other case it calls `Search` once, with skip equal to the
cursor value (0 when `cursor` is absent or empty) and limit equal to the
limit value (20 when `limit` is absent or empty). -/
theorem handleListCompanies_pagination (a : API) (c : gin.Context) (hw : c.written = false) :
    if listRequestRejected c = true then
      a.handleListCompanies c = c.Status 400 ∧
      (a.handleListCompanies c).status = 400 ∧
      (a.handleListCompanies c).calls = c.calls
    else
      ∃ query : companies.SearchFilters,
        (a.handleListCompanies c).calls = c.calls ++
          [.Search query
            (if c.Query "cursor" = "" then 0 else specDecimalValue (c.Query "cursor"))
            (if c.Query "limit" = "" then 20 else specDecimalValue (c.Query "limit"))] := by
  have hst : (c.Status 400).status = 400 ∧ (c.Status 400).calls = c.calls := by
    simp [gin.Context.Status, hw]
  have hcalls : ∀ (c' : gin.Context) (r : Except GoError (List models.Company)),
      (match r with
        | .error _ => c'.Status 500
        | .ok companies => c'.JSON 200 (.results companies)).calls = c'.calls := by
    intro c' r
    cases r <;> simp [gin.Context.Status, gin.Context.JSON, gin.bodyAllowedForStatus] <;>
      split <;> rfl
  unfold API.handleListCompanies listRequestRejected
  simp only [utf8ByteSize_pos_iff]
  by_cases hc : c.Query "cursor" = ""
  · by_cases hl : c.Query "limit" = ""
    · simp only [hc, hl, ne_eq, not_true_eq_false, if_false, false_and, bne_self_eq_false,
        Bool.false_and, Bool.or_self, Bool.false_eq_true, if_true]
      exact ⟨_, by rw [hcalls]; rfl⟩
    · rcases ParseUint_cases (c.Query "limit") with ⟨h1, h2⟩ | ⟨h1, e, h2⟩
      · by_cases hlt : specDecimalValue (c.Query "limit") < 2
        · simp [hc, hl, h1, h2, hlt, hst]
        · simp only [hc, hl, h1, h2, hlt, ne_eq, not_true_eq_false, if_false, not_false_eq_true,
            if_true, and_false, bne_self_eq_false, Bool.false_and, Bool.not_true,
            decide_False, Bool.or_self, Bool.and_false, Bool.false_eq_true]
          exact ⟨_, by rw [hcalls]; rfl⟩
      · simp [hc, hl, h1, h2, hst]
  · rcases ParseUint_cases (c.Query "cursor") with ⟨g1, g2⟩ | ⟨g1, e, g2⟩
    · by_cases hl : c.Query "limit" = ""
      · simp only [hc, hl, g1, g2, ne_eq, not_true_eq_false, if_false, not_false_eq_true,
          if_true, false_and, bne_self_eq_false, Bool.false_and, Bool.not_true,
          Bool.and_false, Bool.or_self, Bool.false_eq_true]
        exact ⟨_, by rw [hcalls]; rfl⟩
      · rcases ParseUint_cases (c.Query "limit") with ⟨h1, h2⟩ | ⟨h1, e, h2⟩
        · by_cases hlt : specDecimalValue (c.Query "limit") < 2
          · simp [hc, hl, g1, g2, h1, h2, hlt, hst]
          · simp only [hc, hl, g1, g2, h1, h2, hlt, ne_eq, not_true_eq_false, if_false,
              not_false_eq_true, if_true, and_false, Bool.not_true,
              decide_False, Bool.or_self, Bool.and_false, Bool.false_eq_true]
            exact ⟨_, by rw [hcalls]; rfl⟩
        · simp [hc, hl, g1, g2, h1, h2, hst]
    · simp [hc, g1, g2, hst]

theorem handleListCompanies_pagination_witness :
    (gin.Context.new "44.44.44.44" [] [("cursor", "40"), ("limit", "10")]).written = false ∧
    (if listRequestRejected
        (gin.Context.new "44.44.44.44" [] [("cursor", "40"), ("limit", "10")]) = true then
      emptyAPI.handleListCompanies
          (gin.Context.new "44.44.44.44" [] [("cursor", "40"), ("limit", "10")]) =
        (gin.Context.new "44.44.44.44" [] [("cursor", "40"), ("limit", "10")]).Status 400 ∧
      (emptyAPI.handleListCompanies
          (gin.Context.new "44.44.44.44" [] [("cursor", "40"), ("limit", "10")])).status = 400 ∧
      (emptyAPI.handleListCompanies
          (gin.Context.new "44.44.44.44" [] [("cursor", "40"), ("limit", "10")])).calls =
        (gin.Context.new "44.44.44.44" [] [("cursor", "40"), ("limit", "10")]).calls
    else
      ∃ query : companies.SearchFilters,
        (emptyAPI.handleListCompanies
          (gin.Context.new "44.44.44.44" [] [("cursor", "40"), ("limit", "10")])).calls =
        (gin.Context.new "44.44.44.44" [] [("cursor", "40"), ("limit", "10")]).calls ++
          [.Search query
            (if (gin.Context.new "44.44.44.44" [] [("cursor", "40"), ("limit", "10")]).Query
                "cursor" = "" then 0
              else specDecimalValue
                ((gin.Context.new "44.44.44.44" [] [("cursor", "40"), ("limit", "10")]).Query
                  "cursor"))
            (if (gin.Context.new "44.44.44.44" [] [("cursor", "40"), ("limit", "10")]).Query
                "limit" = "" then 20
              else specDecimalValue
                ((gin.Context.new "44.44.44.44" [] [("cursor", "40"), ("limit", "10")]).Query
                  "limit"))]) :=
  ⟨rfl, handleListCompanies_pagination emptyAPI
    (gin.Context.new "44.44.44.44" [] [("cursor", "40"), ("limit", "10")]) rfl⟩

/-- C10 as stated fails twice. The cursor `18446744073709551616` is an
unsigned decimal number, so the claim has `Search` called, and the handler
answers 400 without a call. The empty cursor of `?cursor=` is supplied and is
not a number, so the claim has 400, and the handler calls `Search` with
skip 0 and limit 20. -/
theorem handleListCompanies_claim_fails :
    (claimedListRejected
        (gin.Context.new "44.44.44.44" [] [("cursor", "18446744073709551616")]) = false ∧
      (emptyAPI.handleListCompanies
        (gin.Context.new "44.44.44.44" [] [("cursor", "18446744073709551616")])).status = 400 ∧
      (emptyAPI.handleListCompanies
        (gin.Context.new "44.44.44.44" [] [("cursor", "18446744073709551616")])).calls = []) ∧
    (claimedListRejected (gin.Context.new "44.44.44.44" [] [("cursor", "")]) = true ∧
      (emptyAPI.handleListCompanies
        (gin.Context.new "44.44.44.44" [] [("cursor", "")])).calls =
        [.Search ⟨none, none, none, none, none⟩ 0 20]) := by
  decide

/-! ## Update requests -/

theorem validateUpdate_eq (IsValidCountry : String → Bool) (request : companyUpdateRequest) :
    if updateHasInvalid IsValidCountry request = true then
      0 < (validateUpdate IsValidCountry request).1.length
    else
      validateUpdate IsValidCountry request = ([], expectedUpdateFields request) := by
  obtain ⟨name, code, country, website, phone⟩ := request
  unfold validateUpdate updateHasInvalid expectedUpdateFields normalizePhone
  rcases name with _ | name <;> rcases code with _ | code <;>
    rcases country with _ | country <;> rcases website with _ | website <;>
    rcases phone with _ | phone <;>
    (try cases hn : validatedName name) <;> (try cases hc : validatedCode code) <;>
    (try cases hv : validCountry IsValidCountry country) <;>
    (try cases hw : validatedWebsite website) <;>
    simp [succeeds, Except.toOption, *]

/-- C11. For a decoded update patch: when some supplied field fails its
validator the handler answers 400 and makes no call to the companies layer;
when every supplied field passes, its only call is one `Update`, for the id
of the path, with each supplied field at its validated value and each
absent field nil. -/
theorem handleUpdateCompany_patch (IsValidCountry : String → Bool) (a : API)
    (request : companyUpdateRequest) (c : gin.Context) (hw : c.written = false) :
    if updateHasInvalid IsValidCountry request = true then
      (a.handleUpdateCompany IsValidCountry (.ok request) c).status = 400 ∧
      (a.handleUpdateCompany IsValidCountry (.ok request) c).calls = c.calls
    else
      (a.handleUpdateCompany IsValidCountry (.ok request) c).calls =
        c.calls ++ [.Update (c.Param "companyID") (expectedUpdateFields request)] := by
  have h := validateUpdate_eq IsValidCountry request
  unfold API.handleUpdateCompany
  simp only []
  split
  · rename_i hinv
    rw [if_pos hinv] at h
    rw [if_pos h]
    simp [gin.Context.JSON, gin.bodyAllowedForStatus, gin.Context.Status, hw]
  · rename_i hinv
    rw [if_neg hinv] at h
    rw [h]
    simp only [List.length_nil, gt_iff_lt, lt_self_iff_false, if_false]
    cases a.companies.Update (c.Param "companyID") (expectedUpdateFields request) <;>
      simp [gin.Context.Status, gin.Context.record] <;> split <;> rfl

theorem handleUpdateCompany_patch_witness :
    (gin.Context.new "44.44.44.44" [("companyID", "1234")] []).written = false ∧
    (if updateHasInvalid (· == "Cyprus") ⟨some " New Name\n", none, some "Cyprus", none, none⟩
        = true then
      (emptyAPI.handleUpdateCompany (· == "Cyprus")
        (.ok ⟨some " New Name\n", none, some "Cyprus", none, none⟩)
        (gin.Context.new "44.44.44.44" [("companyID", "1234")] [])).status = 400 ∧
      (emptyAPI.handleUpdateCompany (· == "Cyprus")
        (.ok ⟨some " New Name\n", none, some "Cyprus", none, none⟩)
        (gin.Context.new "44.44.44.44" [("companyID", "1234")] [])).calls =
        (gin.Context.new "44.44.44.44" [("companyID", "1234")] []).calls
    else
      (emptyAPI.handleUpdateCompany (· == "Cyprus")
        (.ok ⟨some " New Name\n", none, some "Cyprus", none, none⟩)
        (gin.Context.new "44.44.44.44" [("companyID", "1234")] [])).calls =
        (gin.Context.new "44.44.44.44" [("companyID", "1234")] []).calls ++
          [.Update ((gin.Context.new "44.44.44.44" [("companyID", "1234")] []).Param "companyID")
            (expectedUpdateFields ⟨some " New Name\n", none, some "Cyprus", none, none⟩)]) ∧
    expectedUpdateFields ⟨some " New Name\n", none, some "Cyprus", none, none⟩ =
      ⟨some "New Name", none, some "Cyprus", none, none⟩ :=
  ⟨rfl, handleUpdateCompany_patch (· == "Cyprus") emptyAPI
    ⟨some " New Name\n", none, some "Cyprus", none, none⟩
    (gin.Context.new "44.44.44.44" [("companyID", "1234")] []) rfl, by decide⟩

/-! ## Create, get and delete responses -/

theorem validateCreate_valid (IsValidCountry : String → Bool) (request : createCompanyRequest)
    (n cd : String) (hn : validatedName request.Name = .ok n)
    (hc : validatedCode request.Code = .ok cd)
    (hv : validCountry IsValidCountry request.Country = true)
    (hw : succeeds (validatedWebsite request.Website) = true) :
    validateCreate IsValidCountry request =
      ([], ⟨n, cd, request.Country, request.Website, request.Phone⟩) := by
  have hw' : validatedWebsite request.Website = .ok request.Website := by
    unfold validatedWebsite at hw ⊢
    cases hp : url.ParseRequestURI request.Website <;> simp [hp, succeeds] at hw ⊢
  unfold validateCreate normalizePhone
  simp [hn, hc, hv, hw']

/-- C12. A create request whose name, code, country and website all pass
validation makes one call to the companies layer, `Create` with the
normalized name and code and with country, website and phone as received;
when that call returns an id without error the response is 201 with the
body `{"id": id}`. -/
theorem handleCreateCompany_valid (IsValidCountry : String → Bool) (a : API)
    (request : createCompanyRequest) (c : gin.Context) (hw : c.written = false)
    (hvalid : invalidFieldCount IsValidCountry request = 0) :
    ∃ n cd : String,
      validatedName request.Name = .ok n ∧ n = strings.Trim request.Name " \n" ∧
      validatedCode request.Code = .ok cd ∧ cd = strings.Trim request.Code " \n" ∧
      (a.handleCreateCompany IsValidCountry (.ok request) c).calls =
        c.calls ++ [.Create ⟨n, cd, request.Country, request.Website, request.Phone⟩] ∧
      ∀ id : String,
        a.companies.Create ⟨n, cd, request.Country, request.Website, request.Phone⟩ = .ok id →
        (a.handleCreateCompany IsValidCountry (.ok request) c).status = 201 ∧
        (a.handleCreateCompany IsValidCountry (.ok request) c).body = .id id := by
  unfold invalidFieldCount at hvalid
  have h1 : succeeds (validatedName request.Name) = true := by
    by_contra h; simp [h] at hvalid
  have h2 : succeeds (validatedCode request.Code) = true := by
    by_contra h; simp [h] at hvalid
  have h3 : validCountry IsValidCountry request.Country = true := by
    by_contra h; simp [h] at hvalid
  have h4 : succeeds (validatedWebsite request.Website) = true := by
    by_contra h; simp [h] at hvalid
  cases hn : validatedName request.Name with
  | error e => simp [hn, succeeds] at h1
  | ok n =>
    cases hc : validatedCode request.Code with
    | error e => simp [hc, succeeds] at h2
    | ok cd =>
      have hnt : n = strings.Trim request.Name " \n" := by
        unfold validatedName at hn
        simp only [] at hn
        split at hn
        · cases hn
        · split at hn
          · cases hn
          · injection hn with hn
            exact hn.symm
      have hct : cd = strings.Trim request.Code " \n" := by
        unfold validatedCode at hc
        simp only [] at hc
        split at hc
        · cases hc
        · split at hc
          · cases hc
          · injection hc with hc
            exact hc.symm
      have hval := validateCreate_valid IsValidCountry request n cd hn hc h3 h4
      refine ⟨n, cd, rfl, hnt, rfl, hct, ?_, ?_⟩
      · unfold API.handleCreateCompany
        simp only [hval, List.length_nil, gt_iff_lt, lt_self_iff_false, if_false]
        cases a.companies.Create ⟨n, cd, request.Country, request.Website, request.Phone⟩ <;>
          simp [gin.Context.Status, gin.Context.JSON, gin.bodyAllowedForStatus,
            gin.Context.record] <;> split <;> rfl
      · intro id hid
        unfold API.handleCreateCompany
        simp only [hval, List.length_nil, gt_iff_lt, lt_self_iff_false, if_false, hid]
        simp [gin.Context.JSON, gin.bodyAllowedForStatus, gin.Context.Status, gin.Context.record, hw]

theorem handleCreateCompany_valid_witness :
    (gin.Context.new "44.44.44.44" [] []).written = false ∧
    invalidFieldCount (· == "Cyprus")
      ⟨" Valid Name\n", "VN", "Cyprus", "http://valid.name/", "79991234567"⟩ = 0 ∧
    ∃ n cd : String,
      validatedName " Valid Name\n" = .ok n ∧ n = strings.Trim " Valid Name\n" " \n" ∧
      validatedCode "VN" = .ok cd ∧ cd = strings.Trim "VN" " \n" ∧
      (emptyAPI.handleCreateCompany (· == "Cyprus")
        (.ok ⟨" Valid Name\n", "VN", "Cyprus", "http://valid.name/", "79991234567"⟩)
        (gin.Context.new "44.44.44.44" [] [])).calls =
        (gin.Context.new "44.44.44.44" [] []).calls ++
          [.Create ⟨n, cd, "Cyprus", "http://valid.name/", "79991234567"⟩] ∧
      ∀ id : String,
        emptyAPI.companies.Create ⟨n, cd, "Cyprus", "http://valid.name/", "79991234567"⟩
          = .ok id →
        (emptyAPI.handleCreateCompany (· == "Cyprus")
          (.ok ⟨" Valid Name\n", "VN", "Cyprus", "http://valid.name/", "79991234567"⟩)
          (gin.Context.new "44.44.44.44" [] [])).status = 201 ∧
        (emptyAPI.handleCreateCompany (· == "Cyprus")
          (.ok ⟨" Valid Name\n", "VN", "Cyprus", "http://valid.name/", "79991234567"⟩)
          (gin.Context.new "44.44.44.44" [] [])).body = .id id :=
  ⟨rfl, by decide, handleCreateCompany_valid (· == "Cyprus") emptyAPI
    ⟨" Valid Name\n", "VN", "Cyprus", "http://valid.name/", "79991234567"⟩
    (gin.Context.new "44.44.44.44" [] []) rfl (by decide)⟩

/-- C13. `handleGetCompany` and `handleDeleteCompany` turn the result of the
companies layer into the status: 200 without error (for `Get` with the
company as the JSON body), 404 exactly for `companies.ErrNotFound`, 500 for
any other error. -/
theorem handleGet_handleDelete_status (a : API) (c : gin.Context) (hw : c.written = false) :
    (match a.companies.Get (c.Param "companyID") with
      | .ok company =>
        (a.handleGetCompany c).status = 200 ∧ (a.handleGetCompany c).body = .company company
      | .error err =>
        ((a.handleGetCompany c).status = 404 ↔ err = companies.ErrNotFound) ∧
        ((a.handleGetCompany c).status = 500 ↔ err ≠ companies.ErrNotFound)) ∧
    (match a.companies.Delete (c.Param "companyID") with
      | none => (a.handleDeleteCompany c).status = 200
      | some err =>
        ((a.handleDeleteCompany c).status = 404 ↔ err = companies.ErrNotFound) ∧
        ((a.handleDeleteCompany c).status = 500 ↔ err ≠ companies.ErrNotFound)) := by
  constructor
  · unfold API.handleGetCompany
    cases hg : a.companies.Get (c.Param "companyID") with
    | ok company =>
      simp [hg, gin.Context.JSON, gin.bodyAllowedForStatus, gin.Context.Status,
        gin.Context.record, hw]
    | error err =>
      by_cases he : err = companies.ErrNotFound <;>
        simp [hg, he, gin.Context.Status, gin.Context.record, hw]
  · unfold API.handleDeleteCompany
    cases hd : a.companies.Delete (c.Param "companyID") with
    | none => simp [hd, gin.Context.Status, gin.Context.record, hw]
    | some err =>
      by_cases he : err = companies.ErrNotFound <;>
        simp [hd, he, gin.Context.Status, gin.Context.record, hw]

/-! ## Allowed countries -/

theorem StringSet_Add_Has (l : List String) :
    ∀ (s : structs.StringSet) (c : String),
      (s.Add l).Has c = true ↔ c ∈ s.m ∨ c ∈ l := by
  induction l with
  | nil =>
    intro s c
    simp [structs.StringSet.Add, structs.StringSet.Has]
  | cons x xs ih =>
    intro s c
    have hstep : s.Add (x :: xs) =
        structs.StringSet.Add ⟨if s.m.contains x then s.m else s.m ++ [x]⟩ xs := rfl
    rw [hstep, ih]
    by_cases hx : s.m.contains x = true
    · simp only [hx, if_true, List.mem_cons]
      constructor
      · rintro (h | h)
        · exact Or.inl h
        · exact Or.inr (Or.inr h)
      · rintro (h | h | h)
        · exact Or.inl h
        · subst h
          exact Or.inl (by simpa using hx)
        · exact Or.inr h
    · simp only [hx, Bool.false_eq_true, if_false, List.mem_append, List.mem_singleton,
        List.mem_cons]
      tauto

/-- C16. On a new `StringSet` filled with the configured list by `Add`,
`Has(c)` holds exactly when `c` is an element of the list, compared as
strings character for character; so `cyprus` is not in the set made from
`Cyprus`. -/
theorem allowedCountries_Has_iff (cfg : Config) (c : String) :
    ((structs.NewStringSet.Add cfg.GetAllowedCountries).Has c = true ↔
      c ∈ cfg.GetAllowedCountries) ∧
    (structs.NewStringSet.Add ["Cyprus"]).Has "Cyprus" = true ∧
    (structs.NewStringSet.Add ["Cyprus"]).Has "cyprus" = false := by
  refine ⟨?_, by decide, by decide⟩
  rw [StringSet_Add_Has]
  simp [structs.NewStringSet]

/-! ## Mongo store: update patch and search filter -/

/-- C20. `Update` calls `UpdateOne` with the query on the id and a `$set`
document that holds the current time under `updated_at` and each supplied
field under its name, one entry per key and nothing for an absent field;
when the driver reports no error the result is `store.ErrNotFound` for a
modified count below 1 and nil otherwise. -/
theorem Store_Update_patch (s : mongo.Store) (now : Nat) (id : String)
    (fields : store.CompanyOptFields) :
    s.Update now id fields =
      (match s.col.UpdateOne [("id", .str id)] (mongo.Store.updatePatch now fields) with
        | .error err => some err
        | .ok modifiedCount => if modifiedCount < 1 then some store.ErrNotFound else none) ∧
    (∀ key : String,
      (mongo.Store.updatePatch now fields).lookup key = expectedPatchValue now fields key) ∧
    ((mongo.Store.updatePatch now fields).map Prod.fst).Nodup := by
  obtain ⟨name, code, country, website, phone⟩ := fields
  refine ⟨rfl, ?_, ?_⟩
  · intro key
    unfold mongo.Store.updatePatch expectedPatchValue
    by_cases h1 : key = "updated_at"
    · subst h1
      cases name <;> cases code <;> cases country <;> cases website <;> cases phone <;>
        simp [mongo.BsonM.assign, List.lookup, List.filter]
    · by_cases h2 : key = "name"
      · subst h2
        cases name <;> cases code <;> cases country <;> cases website <;> cases phone <;>
          simp [mongo.BsonM.assign, List.lookup, List.filter]
      · by_cases h3 : key = "code"
        · subst h3
          cases name <;> cases code <;> cases country <;> cases website <;> cases phone <;>
            simp [mongo.BsonM.assign, List.lookup, List.filter]
        · by_cases h4 : key = "country"
          · subst h4
            cases name <;> cases code <;> cases country <;> cases website <;> cases phone <;>
              simp [mongo.BsonM.assign, List.lookup, List.filter]
          · by_cases h5 : key = "phone"
            · subst h5
              cases name <;> cases code <;> cases country <;> cases website <;>
                cases phone <;>
                simp [mongo.BsonM.assign, List.lookup, List.filter]
            · by_cases h6 : key = "website"
              · subst h6
                cases name <;> cases code <;> cases country <;> cases website <;>
                  cases phone <;>
                  simp [mongo.BsonM.assign, List.lookup, List.filter]
              · have e1 : (key == "updated_at") = false := by simpa using h1
                have e2 : (key == "name") = false := by simpa using h2
                have e3 : (key == "code") = false := by simpa using h3
                have e4 : (key == "country") = false := by simpa using h4
                have e5 : (key == "phone") = false := by simpa using h5
                have e6 : (key == "website") = false := by simpa using h6
                cases name <;> cases code <;> cases country <;> cases website <;>
                  cases phone <;>
                  simp [mongo.BsonM.assign, List.lookup, List.filter, h1, h2, h3, h4, h5, h6,
                    e1, e2, e3, e4, e5, e6]
  · unfold mongo.Store.updatePatch
    cases name <;> cases code <;> cases country <;> cases website <;> cases phone <;>
      simp [mongo.BsonM.assign, List.filter]

/-- C14. Evaluation at the failing input: `Search` hands `Find` the struct
`query`, not the `filter` it has built. With no predicate the struct is sent
as five null constraints, and the stored test company, which the built
filter matches, is not found; with only the name supplied the four absent
fields are still constrained to null. -/
theorem Store_Search_sends_query_struct :
    (∀ (s : mongo.Store) (query : store.CompanyOptFields) (skip limit : Nat),
      s.Search query skip limit =
        s.col.Find (.optFields query) (mongo.int64 skip) (mongo.int64 limit)) ∧
    (mongo.NewStore (mongo.collectionOf [validStoredCompany])).Search
      ⟨none, none, none, none, none⟩ 0 20 = .ok [] ∧
    (mongo.collectionOf [validStoredCompany]).Find
      (.doc (mongo.Store.searchFilter ⟨none, none, none, none, none⟩)) 0 20 =
        .ok [validStoredCompany] ∧
    (mongo.NewStore (mongo.collectionOf [validStoredCompany])).Search
      ⟨some "Valid Name", none, none, none, none⟩ 0 20 = .ok [] ∧
    (mongo.collectionOf [validStoredCompany]).Find
      (.doc (mongo.Store.searchFilter ⟨some "Valid Name", none, none, none, none⟩)) 0 20 =
        .ok [validStoredCompany] := by
  refine ⟨fun _ _ _ _ => rfl, by decide, by decide, by decide, by decide⟩

/-! ## Code validation -/

theorem codeMatcher_iff (t : String) :
    codeMatcher t = true ↔ t.data ≠ [] ∧ ∀ c ∈ t.data, isCodeChar c = true := by
  simp [codeMatcher, List.all_eq_true, List.isEmpty_iff]

theorem isCodeChar_bounds (c : Char) (h : isCodeChar c = true) : 'A' ≤ c ∧ c ≤ 'Z' := by
  simpa [isCodeChar] using h

theorem isCodeChar_not_whitespace (c : Char) (h : isCodeChar c = true) :
    c.isWhitespace = false := by
  have hb := isCodeChar_bounds c h
  have h1 : 65 ≤ c.val.toNat := hb.1
  by_contra hw
  have hw' : c.isWhitespace = true := by simpa using hw
  simp only [Char.isWhitespace, Bool.or_eq_true, decide_eq_true_eq] at hw'
  rcases hw' with ((hw' | hw') | hw') | hw' <;> (subst hw'; revert h1; decide)

theorem inCutset_isWhitespace (c : Char) (h : strings.inCutset " \n" c = true) :
    c.isWhitespace = true := by
  have : c = ' ' ∨ c = '\n' := by
    simpa [strings.inCutset] using h
  rcases this with rfl | rfl <;> decide

theorem rdropWhile_append_of_pos {α : Type} (q : α → Bool) (l post : List α)
    (h : ∀ a ∈ post, q a = true) : (l ++ post).rdropWhile q = l.rdropWhile q := by
  unfold List.rdropWhile
  rw [List.reverse_append, List.dropWhile_append_of_pos]
  intro a ha
  exact h a (List.mem_reverse.mp ha)

theorem trim_core {α : Type} (p q : α → Bool) (l : List α)
    (hpq : ∀ a, p a = true → q a = true)
    (hne : (l.rdropWhile p).dropWhile p ≠ [])
    (ht : ∀ a ∈ (l.rdropWhile p).dropWhile p, q a = false) :
    (l.rdropWhile q).dropWhile q = (l.rdropWhile p).dropWhile p := by
  have h1 : l = l.rdropWhile p ++ l.rtakeWhile p := by
    unfold List.rdropWhile List.rtakeWhile
    rw [← List.reverse_append, List.takeWhile_append_dropWhile, List.reverse_reverse]
  have h2 : l.rdropWhile p =
      (l.rdropWhile p).takeWhile p ++ (l.rdropWhile p).dropWhile p :=
    (List.takeWhile_append_dropWhile p (l.rdropWhile p)).symm
  have hpost : ∀ a ∈ l.rtakeWhile p, q a = true := by
    intro a ha
    apply hpq
    unfold List.rtakeWhile at ha
    exact List.mem_takeWhile_imp (List.mem_reverse.mp ha)
  have hpre : ∀ a ∈ (l.rdropWhile p).takeWhile p, q a = true := fun a ha =>
    hpq a (List.mem_takeWhile_imp ha)
  have hq1 : l.rdropWhile q = (l.rdropWhile p).rdropWhile q := by
    conv_lhs => rw [h1]
    exact rdropWhile_append_of_pos q _ _ hpost
  have hq2 : (l.rdropWhile p).rdropWhile q = l.rdropWhile p := by
    rw [List.rdropWhile_eq_self_iff]
    intro hX
    have hlast := List.IsSuffix.getLast (List.dropWhile_suffix p) hne
    have := ht _ (List.getLast_mem hne)
    rw [hlast] at this
    simp [this]
  rw [hq1, hq2]
  conv_lhs => rw [h2]
  rw [List.dropWhile_append_of_pos hpre]
  rw [List.dropWhile_eq_self_iff]
  intro hl
  have hmem : ((l.rdropWhile p).dropWhile p).get ⟨0, hl⟩ ∈ (l.rdropWhile p).dropWhile p :=
    List.get_mem _ _ _
  have := ht _ hmem
  simpa using this

theorem validatedCode_ok_iff (s r : String) :
    validatedCode s = .ok r ↔
      r = strings.Trim s " \n" ∧ 2 ≤ r.utf8ByteSize ∧ codeMatcher r = true := by
  unfold validatedCode
  simp only []
  split
  · rename_i h
    constructor
    · intro h'; cases h'
    · rintro ⟨rfl, h4, _⟩; omega
  · rename_i h
    split
    · rename_i h2
      constructor
      · intro h'; cases h'
      · rintro ⟨rfl, _, hm⟩
        simp [hm] at h2
    · rename_i h2
      constructor
      · intro h'
        injection h' with h'
        subst h'
        refine ⟨rfl, by omega, by simpa using h2⟩
      · rintro ⟨rfl, _, _⟩
        rfl

/-- C19. When `validatedCode` succeeds, its result is the input without its
surrounding whitespace, has at least 2 characters, and every character of
it is an uppercase letter `A`..`Z`; `abcd` and `A` are rejected. -/
theorem validatedCode_result (s r : String) (h : validatedCode s = .ok r) :
    r = specTrimWhitespace s ∧ 2 ≤ r.length ∧ (∀ c ∈ r.data, 'A' ≤ c ∧ c ≤ 'Z') ∧
    succeeds (validatedCode "abcd") = false ∧ succeeds (validatedCode "A") = false := by
  rw [validatedCode_ok_iff] at h
  obtain ⟨hr, h2, hm⟩ := h
  rw [codeMatcher_iff] at hm
  have hle : ∀ c ∈ r.data, c ≤ 'z' := fun c hc =>
    le_trans (isCodeChar_bounds c (hm.2 c hc)).2 (by decide)
  have hdata : r.data =
      (s.data.rdropWhile (strings.inCutset " \n")).dropWhile (strings.inCutset " \n") := by
    rw [hr]
    rfl
  refine ⟨?_, ?_, fun c hc => isCodeChar_bounds c (hm.2 c hc), by decide, by decide⟩
  · apply String.ext
    show r.data = (s.data.rdropWhile Char.isWhitespace).dropWhile Char.isWhitespace
    rw [trim_core (strings.inCutset " \n") Char.isWhitespace s.data inCutset_isWhitespace]
    · exact hdata
    · rw [← hdata]; exact hm.1
    · intro a ha
      rw [← hdata] at ha
      exact isCodeChar_not_whitespace a (hm.2 a ha)
  · rw [← utf8ByteSize_eq_length r hle]
    exact h2

theorem validatedCode_result_witness :
    validatedCode " VN\n" = .ok "VN" ∧
    ("VN" = specTrimWhitespace " VN\n" ∧ 2 ≤ "VN".length ∧
      (∀ c ∈ "VN".data, 'A' ≤ c ∧ c ≤ 'Z') ∧
      succeeds (validatedCode "abcd") = false ∧ succeeds (validatedCode "A") = false) :=
  ⟨by decide, validatedCode_result " VN\n" "VN" (by decide)⟩

theorem handleGet_handleDelete_status_witness :
    (gin.Context.new "44.44.44.44" [("companyID", "1234")] []).written = false ∧
    (((mockAPI (.error companies.ErrNotFound) (some (.other "unexpected error"))).handleGetCompany
        (gin.Context.new "44.44.44.44" [("companyID", "1234")] [])).status = 404 ↔
      companies.ErrNotFound = companies.ErrNotFound) ∧
    (((mockAPI (.error companies.ErrNotFound) (some (.other "unexpected error"))).handleDeleteCompany
        (gin.Context.new "44.44.44.44" [("companyID", "1234")] [])).status = 500 ↔
      GoError.other "unexpected error" ≠ companies.ErrNotFound) :=
  ⟨rfl,
   (handleGet_handleDelete_status
      (mockAPI (.error companies.ErrNotFound) (some (.other "unexpected error")))
      (gin.Context.new "44.44.44.44" [("companyID", "1234")] []) rfl).1.1,
   (handleGet_handleDelete_status
      (mockAPI (.error companies.ErrNotFound) (some (.other "unexpected error")))
      (gin.Context.new "44.44.44.44" [("companyID", "1234")] []) rfl).2.2⟩

/-! ## The handler chain of the engine -/

theorem runHandlers_closed (hs : List Middleware) :
    ∀ (a : API) (c : gin.Context), (runHandlers hs a c).2.2 = .returned →
      ((runHandlers hs a c).2.1.aborted || (runHandlers hs a c).2.1.handlersDone) = true := by
  induction hs with
  | nil => intro a c _; simp [runHandlers]
  | cons h hs ih =>
    intro a c
    unfold runHandlers
    rcases hr : h (runHandlers hs) a c with ⟨a1, c1, e⟩
    cases e with
    | panicked => simp
    | returned =>
      simp only []
      by_cases hf : (c1.aborted || c1.handlersDone) = true
      · simp [hf]
      · simp only [hf, Bool.false_eq_true, if_false]
        exact ih a1 c1

theorem runHandlers_cons (h : Middleware) (hs : List Middleware) (a : API) (c : gin.Context)
    (hclosed : (h (runHandlers hs) a c).2.2 = .returned →
      ((h (runHandlers hs) a c).2.1.aborted || (h (runHandlers hs) a c).2.1.handlersDone) = true) :
    runHandlers (h :: hs) a c = h (runHandlers hs) a c := by
  have hstep : runHandlers (h :: hs) a c =
      (match h (runHandlers hs) a c with
        | (a1, c1, .panicked) => (a1, c1, .panicked)
        | (a1, c1, .returned) =>
          if c1.aborted || c1.handlersDone then (a1, c1, .returned)
          else runHandlers hs a1 c1) := rfl
  rw [hstep]
  rcases hr : h (runHandlers hs) a c with ⟨a1, c1, e⟩
  rw [hr] at hclosed
  cases e with
  | panicked => rfl
  | returned =>
    simp only []
    rw [if_pos (hclosed rfl)]

theorem runHandlers_last (f : API → gin.Context → gin.Context) (a : API) (c : gin.Context) :
    runHandlers [API.wrapHandler f] a c = (a, (f a c).chainEnded, .returned) := by
  simp only [runHandlers, API.wrapHandler, gin.Context.chainEnded]
  split <;> rfl

theorem shutdown_closed (G : HandlerFunc) (a : API) (c : gin.Context)
    (hG : ∀ a c, (G a c).2.2 = .returned →
      ((G a c).2.1.aborted || (G a c).2.1.handlersDone) = true) :
    (API.shutdownMiddleware G a c).2.2 = .returned →
      ((API.shutdownMiddleware G a c).2.1.aborted ||
        (API.shutdownMiddleware G a c).2.1.handlersDone) = true := by
  unfold API.shutdownMiddleware
  split
  · intro _
    simp [gin.Context.AbortWithStatus, gin.Context.Abort]
  · exact hG _ c

theorem recovery_closed (G : HandlerFunc) (a : API) (c : gin.Context)
    (hG : (G a c).2.2 = .returned →
      ((G a c).2.1.aborted || (G a c).2.1.handlersDone) = true) :
    (RecoveryWithZap G a c).2.2 = .returned →
      ((RecoveryWithZap G a c).2.1.aborted || (RecoveryWithZap G a c).2.1.handlersDone) = true := by
  unfold RecoveryWithZap
  rcases hr : G a c with ⟨a1, c1, e⟩
  rw [hr] at hG
  cases e with
  | panicked => intro _; simp [gin.Context.AbortWithStatus, gin.Context.Abort]
  | returned => intro _; exact hG rfl

theorem gate_closed (checker : ipchecker.Checker) (allowed : structs.StringSet)
    (G : HandlerFunc) (a : API) (c : gin.Context)
    (hG : ∀ a c, (G a c).2.2 = .returned →
      ((G a c).2.1.aborted || (G a c).2.1.handlersDone) = true) :
    (IPCheckingMiddleware checker allowed G a c).2.2 = .returned →
      ((IPCheckingMiddleware checker allowed G a c).2.1.aborted ||
        (IPCheckingMiddleware checker allowed G a c).2.1.handlersDone) = true := by
  unfold IPCheckingMiddleware
  simp only []
  split
  · intro _; simp [gin.Context.AbortWithStatus, gin.Context.Abort]
  · split
    · intro _; simp [gin.Context.AbortWithStatus, gin.Context.Abort]
    · exact hG _ _

/-- The engine's chain, with the loop of gin resolved: recovery around the
shutdown gate around the handlers of the route. -/
theorem serve_eq (V : String → Bool) (a : API) (r : Request) (c : gin.Context) :
    a.serve V r c =
      RecoveryWithZap (API.shutdownMiddleware (runHandlers (routeHandlers V a r))) a c := by
  unfold API.serve API.createEngine
  have hR := runHandlers_closed (routeHandlers V a r)
  have h4 : ∀ a' c', runHandlers (API.shutdownMiddleware :: routeHandlers V a r) a' c'
      = API.shutdownMiddleware (runHandlers (routeHandlers V a r)) a' c' := fun a' c' =>
    runHandlers_cons _ _ a' c' (shutdown_closed _ a' c' hR)
  have h3 : ∀ a' c', runHandlers
      (API.reqSetupMiddleware :: API.shutdownMiddleware :: routeHandlers V a r) a' c'
      = API.shutdownMiddleware (runHandlers (routeHandlers V a r)) a' c' := by
    intro a' c'
    rw [← h4]
    exact runHandlers_cons _ _ a' c' (runHandlers_closed _ a' c')
  have h2 : ∀ a' c', runHandlers (RecoveryWithZap :: API.reqSetupMiddleware ::
      API.shutdownMiddleware :: routeHandlers V a r) a' c'
      = RecoveryWithZap (API.shutdownMiddleware (runHandlers (routeHandlers V a r))) a' c' := by
    intro a' c'
    have e : runHandlers (API.reqSetupMiddleware :: API.shutdownMiddleware ::
        routeHandlers V a r) = API.shutdownMiddleware (runHandlers (routeHandlers V a r)) :=
      funext fun x => funext fun y => h3 x y
    rw [← e]
    exact runHandlers_cons _ _ a' c' (recovery_closed _ a' c' (runHandlers_closed _ a' c'))
  have e2 : runHandlers (RecoveryWithZap :: API.reqSetupMiddleware ::
      API.shutdownMiddleware :: routeHandlers V a r) =
      RecoveryWithZap (API.shutdownMiddleware (runHandlers (routeHandlers V a r))) :=
    funext fun x => funext fun y => h2 x y
  show runHandlers (Ginzap :: RecoveryWithZap :: API.reqSetupMiddleware ::
      API.shutdownMiddleware :: routeHandlers V a r) a c = _
  rw [← e2]
  exact runHandlers_cons _ _ a c (runHandlers_closed _ a c)

theorem calls_Status (c : gin.Context) (n : Nat) : (c.Status n).calls = c.calls := by
  unfold gin.Context.Status; split <;> rfl

theorem calls_JSON (c : gin.Context) (n : Nat) (b : gin.ResponseBody) :
    (c.JSON n b).calls = c.calls := by
  unfold gin.Context.JSON; split <;> exact calls_Status c n

theorem calls_AbortWithStatus (c : gin.Context) (n : Nat) :
    (c.AbortWithStatus n).calls = c.calls := by
  simp [gin.Context.AbortWithStatus, gin.Context.Abort, calls_Status]

theorem calls_chainEnded (c : gin.Context) : c.chainEnded.calls = c.calls := by
  unfold gin.Context.chainEnded; split <;> rfl

theorem calls_record (c : gin.Context) (x : Call) : (c.record x).calls = c.calls ++ [x] := rfl

theorem extra_one (calls0 result : List Call) (x : Call) (h : result = calls0 ++ [x])
    (hx : x.isIPCall = false) :
    ∃ extra, result = calls0 ++ extra ∧ extra.filter Call.isIPCall = [] :=
  ⟨[x], h, by simp [hx]⟩

/-- What a route handler adds to the trace: nothing, or one call to the
companies layer. -/
theorem handleListCompanies_calls (a : API) (c : gin.Context) :
    ∃ extra, (a.handleListCompanies c).calls = c.calls ++ extra ∧
      extra.filter Call.isIPCall = [] := by
  unfold API.handleListCompanies
  simp only []
  split
  · exact ⟨[], by simp [calls_Status], rfl⟩
  · split
    · exact ⟨[], by simp [calls_Status], rfl⟩
    · split
      · exact ⟨[], by simp [calls_Status], rfl⟩
      · split
        · exact extra_one _ _ _ (by rw [calls_Status, calls_record]) (by rfl)
        · exact extra_one _ _ _ (by rw [calls_JSON, calls_record]) (by rfl)

theorem handleGetCompany_calls (a : API) (c : gin.Context) :
    ∃ extra, (a.handleGetCompany c).calls = c.calls ++ extra ∧
      extra.filter Call.isIPCall = [] := by
  unfold API.handleGetCompany
  simp only []
  split
  · split
    · exact extra_one _ _ _ (by rw [calls_Status, calls_record]) (by rfl)
    · exact extra_one _ _ _ (by rw [calls_Status, calls_record]) (by rfl)
  · exact extra_one _ _ _ (by rw [calls_JSON, calls_record]) (by rfl)

theorem handleDeleteCompany_calls (a : API) (c : gin.Context) :
    ∃ extra, (a.handleDeleteCompany c).calls = c.calls ++ extra ∧
      extra.filter Call.isIPCall = [] := by
  unfold API.handleDeleteCompany
  simp only []
  split
  · split
    · exact extra_one _ _ _ (by rw [calls_Status, calls_record]) (by rfl)
    · exact extra_one _ _ _ (by rw [calls_Status, calls_record]) (by rfl)
  · exact extra_one _ _ _ (by rw [calls_Status, calls_record]) (by rfl)

theorem bindFailed_calls (c : gin.Context) : (bindFailed c).calls = c.calls := by
  simp [bindFailed, calls_Status, calls_AbortWithStatus]

theorem handleUpdateCompany_calls (V : String → Bool) (a : API)
    (bind : Except GoError companyUpdateRequest) (c : gin.Context) :
    ∃ extra, (a.handleUpdateCompany V bind c).calls = c.calls ++ extra ∧
      extra.filter Call.isIPCall = [] := by
  unfold API.handleUpdateCompany
  split
  · exact ⟨[], by simp [bindFailed_calls], rfl⟩
  · simp only []
    split
    · exact ⟨[], by simp [calls_JSON], rfl⟩
    · split
      · exact extra_one _ _ _ (by rw [calls_Status, calls_record]) (by rfl)
      · exact extra_one _ _ _ (by rw [calls_Status, calls_record]) (by rfl)

theorem handleCreateCompany_calls (V : String → Bool) (a : API)
    (bind : Except GoError createCompanyRequest) (c : gin.Context) :
    ∃ extra, (a.handleCreateCompany V bind c).calls = c.calls ++ extra ∧
      extra.filter Call.isIPCall = [] := by
  unfold API.handleCreateCompany
  split
  · exact ⟨[], by simp [bindFailed_calls], rfl⟩
  · simp only []
    split
    · exact ⟨[], by simp [calls_JSON], rfl⟩
    · split
      · exact extra_one _ _ _ (by rw [calls_Status, calls_record]) (by rfl)
      · exact extra_one _ _ _ (by rw [calls_JSON, calls_record]) (by rfl)

theorem handleListCompanies_congr (a b : API) (c : gin.Context)
    (h : a.companies = b.companies) : a.handleListCompanies c = b.handleListCompanies c := by
  unfold API.handleListCompanies
  rw [h]

theorem handleGetCompany_congr (a b : API) (c : gin.Context)
    (h : a.companies = b.companies) : a.handleGetCompany c = b.handleGetCompany c := by
  unfold API.handleGetCompany
  rw [h]

theorem handleUpdateCompany_congr (V : String → Bool) (a b : API)
    (bind : Except GoError companyUpdateRequest) (c : gin.Context)
    (h : a.companies = b.companies) :
    a.handleUpdateCompany V bind c = b.handleUpdateCompany V bind c := by
  unfold API.handleUpdateCompany
  rw [h]

theorem ungated_core (f : API → gin.Context → gin.Context)
    (hcongr : ∀ a b c, a.companies = b.companies → f a c = f b c)
    (hcalls : ∀ a c, ∃ extra, (f a c).calls = c.calls ++ extra ∧
      extra.filter Call.isIPCall = [])
    (a : API) (ck : ipchecker.Checker) (c : gin.Context) :
    (RecoveryWithZap (API.shutdownMiddleware (runHandlers [API.wrapHandler f]))
        { a with ipChecker := ck } c).2 =
      (RecoveryWithZap (API.shutdownMiddleware (runHandlers [API.wrapHandler f])) a c).2 ∧
    (RecoveryWithZap (API.shutdownMiddleware (runHandlers [API.wrapHandler f]))
        a c).2.1.calls.filter Call.isIPCall = c.calls.filter Call.isIPCall := by
  have hf : f { a with ipChecker := ck, wg := a.wg + 1 } c = f { a with wg := a.wg + 1 } c :=
    hcongr _ _ c rfl
  obtain ⟨extra, he, hx⟩ := hcalls { a with wg := a.wg + 1 } c
  unfold RecoveryWithZap API.shutdownMiddleware
  simp only [runHandlers_last]
  by_cases hs : a.stopping > 0
  · simp only [hs, if_true, and_self, true_and, calls_AbortWithStatus]
  · simp only [hs, if_false, hf, true_and, calls_chainEnded, he, List.filter_append, hx,
      List.append_nil]

theorem gate_eval (f : API → gin.Context → gin.Context) (ck : ipchecker.Checker)
    (l : List String) (a : API) (c : gin.Context) :
    IPCheckingMiddleware ck (structs.NewStringSet.Add l) (runHandlers [API.wrapHandler f]) a c =
      (a,
        match ck.GetIPCountry c.ClientIP with
        | .error _ => (c.record (.GetIPCountry c.ClientIP)).AbortWithStatus 500
        | .ok country =>
          if country ∈ l then (f a (c.record (.GetIPCountry c.ClientIP))).chainEnded
          else (c.record (.GetIPCountry c.ClientIP)).AbortWithStatus 403,
        .returned) := by
  have hmem : ∀ country, (structs.NewStringSet.Add l).Has country = true ↔ country ∈ l := by
    intro country
    rw [StringSet_Add_Has]
    simp [structs.NewStringSet]
  unfold IPCheckingMiddleware
  simp only [runHandlers_last]
  cases hl : ck.GetIPCountry c.ClientIP with
  | error e => rfl
  | ok country =>
    by_cases hm : country ∈ l
    · have := (hmem country).mpr hm
      simp [this, hm]
    · have : (structs.NewStringSet.Add l).Has country = false := by
        cases hh : (structs.NewStringSet.Add l).Has country with
        | false => rfl
        | true => exact absurd ((hmem country).mp hh) hm
      simp [this, hm]

theorem gated_serve (V : String → Bool) (a : API) (r : Request) (c : gin.Context)
    (f : API → gin.Context → gin.Context)
    (hroute : routeHandlers V a r =
      [IPCheckingMiddleware a.ipChecker (structs.NewStringSet.Add a.cfg.GetAllowedCountries),
       API.wrapHandler f]) :
    (a.serve V r c).2 = gatedResponse a c f := by
  rw [serve_eq, hroute]
  have hg : runHandlers
      [IPCheckingMiddleware a.ipChecker (structs.NewStringSet.Add a.cfg.GetAllowedCountries),
       API.wrapHandler f] =
      IPCheckingMiddleware a.ipChecker (structs.NewStringSet.Add a.cfg.GetAllowedCountries)
        (runHandlers [API.wrapHandler f]) :=
    funext fun x => funext fun y =>
      runHandlers_cons _ _ x y (gate_closed _ _ _ x y (runHandlers_closed _))
  rw [hg]
  unfold RecoveryWithZap API.shutdownMiddleware gatedResponse
  by_cases hs : a.stopping > 0
  · simp only [hs, if_true]
  · simp only [hs, if_false, gate_eval]
    cases a.ipChecker.GetIPCountry c.ClientIP with
    | error e => rfl
    | ok country =>
      by_cases hm : country ∈ a.cfg.GetAllowedCountries <;> simp [hm]

/-- C15. In the engine of `createEngine` the geo gate stands in the chains
of `POST /v1/companies` and `DELETE /v1/companies/:companyID` and in no
other. On those two routes the response is the gated one: a running API
looks the caller's country up; a failed lookup aborts with 500 and a country
outside the configured list with 403, in both cases with the lookup as the
only collaborator call, so the handler is not run; a listed country lets
the handler run. On `GET /v1`, `GET /v1/companies`,
`GET /v1/companies/:companyID` and `PUT /v1/companies/:companyID` no lookup
is made and the response is the same whatever IP checker the API holds. -/
theorem createEngine_gate_routes (V : String → Bool) (a : API) (ck : ipchecker.Checker)
    (r : Request) (c : gin.Context) :
    if r.route = .createCompany ∨ r.route = .deleteCompany then
      (a.serve V r c).2 = gatedResponse a c
        (if r.route = .createCompany then (fun a c => a.handleCreateCompany V r.createBody c)
          else API.handleDeleteCompany) ∧
      (∀ country : String, a.stopping ≤ 0 →
        a.ipChecker.GetIPCountry c.ClientIP = .ok country →
        country ∉ a.cfg.GetAllowedCountries →
        (a.serve V r c).2.1.aborted = true ∧
        (a.serve V r c).2.1.calls = c.calls ++ [.GetIPCountry c.ClientIP] ∧
        (c.written = false → (a.serve V r c).2.1.status = 403)) ∧
      (∀ err : GoError, a.stopping ≤ 0 →
        a.ipChecker.GetIPCountry c.ClientIP = .error err →
        (a.serve V r c).2.1.aborted = true ∧
        (a.serve V r c).2.1.calls = c.calls ++ [.GetIPCountry c.ClientIP] ∧
        (c.written = false → (a.serve V r c).2.1.status = 500))
    else
      (API.serve V { a with ipChecker := ck } r c).2 = (a.serve V r c).2 ∧
      (a.serve V r c).2.1.calls.filter Call.isIPCall = c.calls.filter Call.isIPCall := by
  have hcons : ∀ f : API → gin.Context → gin.Context,
      (a.serve V r c).2 = gatedResponse a c f →
      (∀ country : String, a.stopping ≤ 0 →
        a.ipChecker.GetIPCountry c.ClientIP = .ok country →
        country ∉ a.cfg.GetAllowedCountries →
        (a.serve V r c).2.1.aborted = true ∧
        (a.serve V r c).2.1.calls = c.calls ++ [.GetIPCountry c.ClientIP] ∧
        (c.written = false → (a.serve V r c).2.1.status = 403)) ∧
      (∀ err : GoError, a.stopping ≤ 0 →
        a.ipChecker.GetIPCountry c.ClientIP = .error err →
        (a.serve V r c).2.1.aborted = true ∧
        (a.serve V r c).2.1.calls = c.calls ++ [.GetIPCountry c.ClientIP] ∧
        (c.written = false → (a.serve V r c).2.1.status = 500)) := by
    intro f hf
    rw [hf]
    constructor
    · intro country hs hl hm
      have hs' : ¬ a.stopping > 0 := by omega
      simp only [gatedResponse, hs', if_false, hl, hm]
      refine ⟨?_, ?_, ?_⟩
      · simp [gin.Context.AbortWithStatus, gin.Context.Abort]
      · simp [calls_AbortWithStatus, calls_record]
      · intro hw
        simp [gin.Context.AbortWithStatus, gin.Context.Abort, gin.Context.Status,
          gin.Context.record, hw]
    · intro err hs hl
      have hs' : ¬ a.stopping > 0 := by omega
      simp only [gatedResponse, hs', if_false, hl]
      refine ⟨?_, ?_, ?_⟩
      · simp [gin.Context.AbortWithStatus, gin.Context.Abort]
      · simp [calls_AbortWithStatus, calls_record]
      · intro hw
        simp [gin.Context.AbortWithStatus, gin.Context.Abort, gin.Context.Status,
          gin.Context.record, hw]
  obtain ⟨route, createBody, updateBody⟩ := r
  cases route with
  | getV1 =>
    simp only [reduceCtorEq, or_self, if_false]
    rw [serve_eq, serve_eq]
    exact ungated_core (fun _ c => c.Status 200) (fun _ _ _ _ => rfl)
      (fun _ c => ⟨[], by simp [calls_Status], rfl⟩) a ck c
  | listCompanies =>
    simp only [reduceCtorEq, or_self, if_false]
    rw [serve_eq, serve_eq]
    exact ungated_core API.handleListCompanies handleListCompanies_congr
      handleListCompanies_calls a ck c
  | getCompany =>
    simp only [reduceCtorEq, or_self, if_false]
    rw [serve_eq, serve_eq]
    exact ungated_core API.handleGetCompany handleGetCompany_congr
      handleGetCompany_calls a ck c
  | updateCompany =>
    simp only [reduceCtorEq, or_self, if_false]
    rw [serve_eq, serve_eq]
    exact ungated_core (fun a c => a.handleUpdateCompany V updateBody c)
      (fun a b c h => handleUpdateCompany_congr V a b updateBody c h)
      (fun a c => handleUpdateCompany_calls V a updateBody c) a ck c
  | createCompany =>
    simp only [true_or, if_true]
    have h := gated_serve V a ⟨.createCompany, createBody, updateBody⟩ c
      (fun a c => a.handleCreateCompany V createBody c) rfl
    exact ⟨h, hcons _ h⟩
  | deleteCompany =>
    simp only [or_true, if_true, reduceCtorEq, if_false]
    have h := gated_serve V a ⟨.deleteCompany, createBody, updateBody⟩ c
      API.handleDeleteCompany rfl
    exact ⟨h, hcons _ h⟩

theorem createEngine_gate_routes_witness :
    ((NewAPI ⟨["Test"]⟩ (mockCompanies (.error companies.ErrNotFound) none)
        (constChecker "Unwhitelisted")).serve (· == "Cyprus")
      ⟨.deleteCompany, .error (.other "no body"), .error (.other "no body")⟩
      (gin.Context.new "44.44.44.44" [("companyID", "1234")] [])).2.1.status = 403 ∧
    ((NewAPI ⟨["Test"]⟩ (mockCompanies (.error companies.ErrNotFound) none)
        (constChecker "Unwhitelisted")).serve (· == "Cyprus")
      ⟨.deleteCompany, .error (.other "no body"), .error (.other "no body")⟩
      (gin.Context.new "44.44.44.44" [("companyID", "1234")] [])).2.1.calls =
      [.GetIPCountry "44.44.44.44"] :=
  have h := (createEngine_gate_routes (· == "Cyprus")
    (NewAPI ⟨["Test"]⟩ (mockCompanies (.error companies.ErrNotFound) none)
      (constChecker "Unwhitelisted")) (constChecker "Test")
    ⟨.deleteCompany, .error (.other "no body"), .error (.other "no body")⟩
    (gin.Context.new "44.44.44.44" [("companyID", "1234")] [])).2.1 "Unwhitelisted"
      (by decide) rfl (by decide)
  ⟨h.2.2 rfl, h.2.1⟩

/-! ## The stopping flag over time -/

theorem route_fst (V : String → Bool) (a0 : API) (r : Request) (a : API) (c : gin.Context) :
    (runHandlers (routeHandlers V a0 r) a c).1 = a := by
  obtain ⟨route, createBody, updateBody⟩ := r
  have hgate : ∀ (f : API → gin.Context → gin.Context),
      (runHandlers [IPCheckingMiddleware a0.ipChecker
        (structs.NewStringSet.Add a0.cfg.GetAllowedCountries), API.wrapHandler f] a c).1 = a := by
    intro f
    rw [runHandlers_cons _ _ a c (gate_closed _ _ _ a c (runHandlers_closed _))]
    unfold IPCheckingMiddleware
    simp only [runHandlers_last]
    split
    · rfl
    · split <;> rfl
  cases route with
  | getV1 => exact congrArg Prod.fst (runHandlers_last (fun _ c => c.Status 200) a c)
  | listCompanies => exact congrArg Prod.fst (runHandlers_last _ a c)
  | getCompany => exact congrArg Prod.fst (runHandlers_last _ a c)
  | updateCompany => exact congrArg Prod.fst (runHandlers_last _ a c)
  | createCompany => exact hgate _
  | deleteCompany => exact hgate _

theorem serve_stopping (V : String → Bool) (a : API) (r : Request) (c : gin.Context) :
    (a.serve V r c).1.stopping = a.stopping ∧ (a.serve V r c).1.wg = a.wg := by
  rw [serve_eq]
  have h1 := route_fst V a r { a with wg := a.wg + 1 } c
  unfold RecoveryWithZap API.shutdownMiddleware
  by_cases hs : a.stopping > 0
  · simp only [hs, if_true, and_self]
  · simp only [hs, if_false]
    rcases hr : runHandlers (routeHandlers V a r) { a with wg := a.wg + 1 } c with ⟨a1, c1, e⟩
    rw [hr] at h1
    simp only [] at h1
    subst h1
    cases e <;> simp

theorem wrapInt32_small (x : Int) (h0 : 0 < x) (h1 : x + 1 < 2 ^ 31) :
    wrapInt32 (x + 1) = x + 1 := by
  unfold wrapInt32
  omega

theorem wrapInt32_add (x y : Int) : wrapInt32 (wrapInt32 x + y) = wrapInt32 (x + y) := by
  unfold wrapInt32
  omega

theorem after_stopping (V : String → Bool) (events : List Event) :
    ∀ a : API, 0 < a.stopping → a.stopping + stopCount events < 2 ^ 31 →
      (a.after V events).stopping = a.stopping + stopCount events := by
  induction events with
  | nil => intro a _ _; simp [API.after, stopCount]
  | cons e es ih =>
    intro a hs hb
    cases e with
    | stop =>
      have hc : stopCount (Event.stop :: es) = stopCount es + 1 := by
        simp [stopCount, Event.isStop]
      rw [hc] at hb ⊢
      push_cast at hb ⊢
      have hst : a.Stop.stopping = a.stopping + 1 := by
        show wrapInt32 (a.stopping + 1) = a.stopping + 1
        exact wrapInt32_small _ hs (by omega)
      show (API.after V a.Stop es).stopping = _
      rw [ih a.Stop (by omega) (by omega), hst]
      omega
    | request r c =>
      have hc : stopCount (Event.request r c :: es) = stopCount es := by
        simp [stopCount, Event.isStop]
      rw [hc] at hb ⊢
      have hst := (serve_stopping V a r c).1
      show (API.after V (a.serve V r c).1 es).stopping = _
      rw [ih _ (by omega) (by omega), hst]

theorem wrapInt32_range (x : Int) : -2 ^ 31 ≤ wrapInt32 x ∧ wrapInt32 x < 2 ^ 31 := by
  unfold wrapInt32
  omega

theorem wrapInt32_id (x : Int) (h0 : -2 ^ 31 ≤ x) (h1 : x < 2 ^ 31) : wrapInt32 x = x := by
  unfold wrapInt32
  omega

theorem after_replicate_stop (V : String → Bool) (n : Nat) :
    ∀ a : API, -2 ^ 31 ≤ a.stopping → a.stopping < 2 ^ 31 →
      (a.after V (List.replicate n Event.stop)).stopping = wrapInt32 (a.stopping + n) := by
  induction n with
  | zero =>
    intro a h0 h1
    simp only [List.replicate, API.after, Nat.cast_zero, add_zero]
    exact (wrapInt32_id _ h0 h1).symm
  | succ n ih =>
    intro a _ _
    show (API.after V a.Stop (List.replicate n Event.stop)).stopping = _
    have hr := wrapInt32_range (a.stopping + 1)
    have hs : a.Stop.stopping = wrapInt32 (a.stopping + 1) := rfl
    rw [ih a.Stop (by rw [hs]; exact hr.1) (by rw [hs]; exact hr.2), hs, wrapInt32_add]
    push_cast
    congr 1
    omega

/-- C17 (as amended). Once the stopping flag is raised, it stays raised
through any further sequence of served requests and `Stop` calls that keeps
the flag, an `int32` counting the `Stop` calls, below 2^31: after the
sequence the flag is positive and `shutdownMiddleware` rejects every new
request. -/
theorem draining_persists_below_overflow (V : String → Bool) (a : API) (events : List Event)
    (hs : 0 < a.stopping) (hb : a.stopping + stopCount events < 2 ^ 31) :
    0 < (a.after V events).stopping ∧
    ∀ (next : HandlerFunc) (c : gin.Context),
      API.shutdownMiddleware next (a.after V events) c =
        (a.after V events, c.AbortWithStatus 500, .returned) := by
  have h := after_stopping V events a hs hb
  have hpos : 0 < (a.after V events).stopping := by
    rw [h]
    have : (0 : Int) ≤ stopCount events := Int.ofNat_nonneg _
    omega
  refine ⟨hpos, fun next c => ?_⟩
  simp [API.shutdownMiddleware, hpos]

theorem draining_persists_below_overflow_witness :
    0 < emptyAPI.Stop.stopping ∧
    emptyAPI.Stop.stopping +
      stopCount [.request ⟨.getV1, .error (.other "no body"), .error (.other "no body")⟩
        (gin.Context.new "44.44.44.44" [] []), .stop] < 2 ^ 31 ∧
    0 < (API.after (· == "Cyprus") emptyAPI.Stop
      [.request ⟨.getV1, .error (.other "no body"), .error (.other "no body")⟩
        (gin.Context.new "44.44.44.44" [] []), .stop]).stopping :=
  ⟨by decide, by decide,
   (draining_persists_below_overflow (· == "Cyprus") emptyAPI.Stop
      [.request ⟨.getV1, .error (.other "no body"), .error (.other "no body")⟩
        (gin.Context.new "44.44.44.44" [] []), .stop] (by decide) (by decide)).1⟩

theorem shutdownMiddleware_admits (a : API) (c : gin.Context) (h : a.stopping ≤ 0) :
    (API.shutdownMiddleware (runHandlers []) a c).2.1.aborted = c.aborted := by
  have hn : ¬ a.stopping > 0 := by omega
  simp [API.shutdownMiddleware, hn, runHandlers]

theorem after_stops_wrapped (V : String → Bool) (n : Nat) (a : API) (v : Int)
    (h0 : -2 ^ 31 ≤ a.stopping) (h1 : a.stopping < 2 ^ 31)
    (hv : wrapInt32 (a.stopping + n) = v) :
    (a.after V (List.replicate n Event.stop)).stopping = v :=
  (after_replicate_stop V n a h0 h1).trans hv

/-- C17 as stated fails: `stopping` is an `int32` that every `Stop`
increments. After the first `Stop` the flag is 1; a further 2^31 - 1 calls
wrap it to -2^31, and `shutdownMiddleware` lets the next request through. -/
theorem stopping_flag_wraps :
    0 < emptyAPI.Stop.stopping ∧
    (API.after (· == "Cyprus") emptyAPI.Stop
      (List.replicate (2 ^ 31 - 1) Event.stop)).stopping = -2 ^ 31 ∧
    (API.shutdownMiddleware (runHandlers [])
      (API.after (· == "Cyprus") emptyAPI.Stop (List.replicate (2 ^ 31 - 1) Event.stop))
      (gin.Context.new "44.44.44.44" [] [])).2.1.aborted = false :=
  have harith : wrapInt32 (emptyAPI.Stop.stopping + ((2 ^ 31 - 1 : Nat) : Int)) = -2 ^ 31 := by
    decide
  have hval := after_stops_wrapped (· == "Cyprus") (2 ^ 31 - 1) emptyAPI.Stop (-2 ^ 31)
    (by decide) (by decide) harith
  ⟨by decide, hval,
    shutdownMiddleware_admits _ (gin.Context.new "44.44.44.44" [] [])
      (le_of_eq_of_le hval (by decide))⟩

/-! ## The in-flight counter -/

end XMCompanies
